import Mathlib

/-!
# v8bitfield: decoding V8 PropertyDetails words

A shallow embedding of `src/v8bitfield.c`.

Conventions of the embedding:

* `unsigned long` is the 64-bit word of an LP64 platform, `int` is 32 bits wide.  Words are
  natural numbers; the only arithmetic the program does on them is `>>` and `&`, which never
  leave the range of the type.
* A `const char *` that the code tests against `NULL` is an `Option String` (`none` is `NULL`).
* The fixed-size, sentinel-terminated arrays `vb_values[16]` and `vv_descs[32]` are lists
  holding every slot of the array, sentinel and zero-filled tail included.  The loops walk the
  list slot by slot and stop at the first `NULL`, as the C loops do.
* Standard output is the sequence of `printf` calls the program makes, one `Printf` event per
  call site, with the arguments of the call; `Printf.render` gives the bytes of one call and
  `stdout_text` those of the whole run.
* A function returns `none` when the run leaves defined behaviour or aborts: a shift by an
  amount the C standard does not define, a read past the end of an array, a failed `assert`.
* `main` takes the parser of its VALUE argument as a parameter; `strtoul` is the C library
  function the program calls, written after ISO C 7.22.1.4 for the "C" locale.  `errx` is recorded
  by its exit status and its formatted message, without the program-name prefix and the newline
  the library adds.
-/

namespace V8Bitfield

/-! ## Data model (lines 11-37) -/

/-- The constant `EXIT_USAGE` (line 11). -/
def EXIT_USAGE : Nat := 2

/-- Entry of a symbol table: `v8_enumvalue_t` (lines 15-18).  `vv_flags` is a C `int`. -/
structure v8_enumvalue_t where
  vv_name : Option String
  vv_flags : Int
  deriving DecidableEq, Repr

/-- The C enum `v8_bitfield_type_t` (lines 20-24): an integer type with three enumerators. -/
abbrev v8_bitfield_type_t := Nat

/-- Enumerator `V8_BITFIELD_RAW` (value 0). -/
abbrev V8_BITFIELD_RAW : v8_bitfield_type_t := 0

/-- Enumerator `V8_BITFIELD_ENUM` (value 1). -/
abbrev V8_BITFIELD_ENUM : v8_bitfield_type_t := 1

/-- Enumerator `V8_BITFIELD_FLAGS` (value 2). -/
abbrev V8_BITFIELD_FLAGS : v8_bitfield_type_t := 2

/-- Description of one field: `v8_bitfield_spec_t` (lines 26-32).  `vb_off` and `vb_nbits` are
`size_t`; `vb_values` is the array `vb_values[16]`. -/
structure v8_bitfield_spec_t where
  vb_name : String
  vb_type : v8_bitfield_type_t
  vb_off : Nat
  vb_nbits : Nat
  vb_values : List v8_enumvalue_t
  deriving DecidableEq, Repr

/-- Description of one word: `v8_bitfield_value_t` (lines 34-37).  `vv_descs` is the array of
pointers `vv_descs[32]`, `none` being the `NULL` pointer. -/
structure v8_bitfield_value_t where
  vv_name : String
  vv_descs : List (Option v8_bitfield_spec_t)
  deriving DecidableEq, Repr

/-- The all-zero slot `{ NULL }` of a symbol table, also what C fills the rest of a partly
initialised array with. -/
def null_value : v8_enumvalue_t := ⟨none, 0⟩

/-- An initialiser of `vb_values[16]`: the slots written in the source, zero-filled to 16. -/
def values16 (init : List v8_enumvalue_t) : List v8_enumvalue_t :=
  init ++ List.replicate (16 - init.length) null_value

/-- An initialiser of `vv_descs[32]`: the slots written in the source, `NULL`-filled to 32. -/
def descs32 (init : List (Option v8_bitfield_spec_t)) : List (Option v8_bitfield_spec_t) :=
  init ++ List.replicate (32 - init.length) none

/-- A written slot `{ "name", value }` of a symbol table. -/
def sym (name : String) (value : Int) : v8_enumvalue_t := ⟨some name, value⟩

/-! ## The compiled-in tables (lines 44-177) -/

/-- Lines 44-56. -/
def v8_010_property_type : v8_bitfield_spec_t :=
  { vb_name := "PropertyType", vb_type := V8_BITFIELD_ENUM, vb_off := 0, vb_nbits := 3,
    vb_values := values16 [
      sym "NORMAL" 0,
      sym "FIELD" 1,
      sym "CONSTANT" 2,
      sym "CALLBACKS" 3,
      sym "HANDLER" 4,
      sym "INTERCEPTOR" 5,
      sym "TRANSITION" 6,
      sym "NONEXISTENT" 7,
      null_value] }

/-- Lines 58-67. -/
def v8_010_property_attr : v8_bitfield_spec_t :=
  { vb_name := "PropertyAttributes", vb_type := V8_BITFIELD_FLAGS, vb_off := 3, vb_nbits := 3,
    vb_values := values16 [
      sym "NONE" 0,
      sym "READ_ONLY" (1 <<< 0),
      sym "DONT_ENUM" (1 <<< 1),
      sym "DONT_DELETE" (1 <<< 2),
      sym "ABSENT" 16,
      null_value] }

/-- Lines 69-74. -/
def v8_010_property_deleted : v8_bitfield_spec_t :=
  { vb_name := "DeletedField", vb_type := V8_BITFIELD_FLAGS, vb_off := 6, vb_nbits := 1,
    vb_values := values16 [
      sym "DELETED" 1,
      null_value] }

/-- Lines 76-78. -/
def v8_010_property_dictstorage : v8_bitfield_spec_t :=
  { vb_name := "DictionaryStorage", vb_type := V8_BITFIELD_RAW, vb_off := 7, vb_nbits := 24,
    vb_values := values16 [] }

/-- Lines 80-82. -/
def v8_010_property_descstorage : v8_bitfield_spec_t :=
  { vb_name := "DescriptorStorage", vb_type := V8_BITFIELD_RAW, vb_off := 7, vb_nbits := 11,
    vb_values := values16 [] }

/-- Lines 84-86. -/
def v8_010_property_descptr : v8_bitfield_spec_t :=
  { vb_name := "DescriptorPointer", vb_type := V8_BITFIELD_RAW, vb_off := 18, vb_nbits := 11,
    vb_values := values16 [] }

/-- Lines 88-98. -/
def v8_010_property_details : v8_bitfield_value_t :=
  { vv_name := "PropertyDetails",
    vv_descs := descs32 [
      some v8_010_property_type,
      some v8_010_property_attr,
      some v8_010_property_deleted,
      some v8_010_property_dictstorage,
      some v8_010_property_descstorage,
      some v8_010_property_descptr,
      none] }

/-- Lines 103-114. -/
def v8_012_property_type : v8_bitfield_spec_t :=
  { vb_name := "PropertyType", vb_type := V8_BITFIELD_ENUM, vb_off := 0, vb_nbits := 3,
    vb_values := values16 [
      sym "NORMAL" 0,
      sym "FIELD" 1,
      sym "CONSTANT" 2,
      sym "CALLBACKS" 3,
      sym "HANDLER" 4,
      sym "INTERCEPTOR" 5,
      sym "NONEXISTENT" 6,
      null_value] }

/-- Lines 116-128. -/
def v8_012_property_attr : v8_bitfield_spec_t :=
  { vb_name := "PropertyAttributes", vb_type := V8_BITFIELD_FLAGS, vb_off := 3, vb_nbits := 3,
    vb_values := values16 [
      sym "NONE" 0,
      sym "READ_ONLY" (1 <<< 0),
      sym "DONT_ENUM" (1 <<< 1),
      sym "DONT_DELETE" (1 <<< 2),
      sym "STRING" 8,
      sym "SYMBOLIC" 16,
      sym "PRIVATE_SYMBOL" 32,
      sym "ABSENT" 64,
      null_value] }

/-- Lines 130-135. -/
def v8_012_property_deleted : v8_bitfield_spec_t :=
  { vb_name := "DeletedField", vb_type := V8_BITFIELD_FLAGS, vb_off := 6, vb_nbits := 1,
    vb_values := values16 [
      sym "DELETED" 1,
      null_value] }

/-- Lines 137-139. -/
def v8_012_property_dictstorage : v8_bitfield_spec_t :=
  { vb_name := "DictionaryStorage", vb_type := V8_BITFIELD_RAW, vb_off := 7, vb_nbits := 24,
    vb_values := values16 [] }

/-- Lines 141-156. -/
def v8_012_property_repr : v8_bitfield_spec_t :=
  { vb_name := "Representation", vb_type := V8_BITFIELD_ENUM, vb_off := 6, vb_nbits := 4,
    vb_values := values16 [
      sym "None" 0,
      sym "Integer8" 1,
      sym "UInteger8" 2,
      sym "Integer16" 3,
      sym "UInteger16" 4,
      sym "Smi" 5,
      sym "Integer32" 6,
      sym "Double" 7,
      sym "HeapObject" 8,
      sym "Tagged" 9,
      sym "External" 10,
      null_value] }

/-- Lines 158-160. -/
def v8_012_property_descptr : v8_bitfield_spec_t :=
  { vb_name := "DescriptorPointer", vb_type := V8_BITFIELD_RAW, vb_off := 10, vb_nbits := 10,
    vb_values := values16 [] }

/-- Lines 162-164. -/
def v8_012_property_fieldindex : v8_bitfield_spec_t :=
  { vb_name := "FieldIndex", vb_type := V8_BITFIELD_RAW, vb_off := 20, vb_nbits := 10,
    vb_values := values16 [] }

/-- Lines 166-177. -/
def v8_012_property_details : v8_bitfield_value_t :=
  { vv_name := "PropertyDetails",
    vv_descs := descs32 [
      some v8_012_property_type,
      some v8_012_property_attr,
      some v8_012_property_deleted,
      some v8_012_property_dictstorage,
      some v8_012_property_repr,
      some v8_012_property_descptr,
      some v8_012_property_fieldindex,
      none] }

/-! ## Output: the `printf` calls of the program -/

/-- One call of `printf`, named after its call site, with the arguments passed. -/
inductive Printf where
  /-- Line 223: `"    %s: from bit %ld for %ld bits (%s)\n"`. -/
  | cfg_spec (name : String) (off nbits : Nat) (label : String)
  /-- Line 227: `"    %20s = 0x%x\n"`. -/
  | cfg_value (name : String) (flags : Int)
  /-- Line 235: `"%s:\n"`. -/
  | cfg_head (name : String)
  /-- Line 263: `"value 0x%lx as %s:\n"`. -/
  | val_head (value : Nat) (name : String)
  /-- Line 278: `"    %20s: "`. -/
  | val_label (name : String)
  /-- Line 280: `"0x%lx\n"`. -/
  | val_raw (decoded : Nat)
  /-- Line 289: `"%s\n"`. -/
  | val_enum (name : String)
  /-- Line 297: `"%s "`. -/
  | val_flag (name : String)
  /-- Line 301: `"UNKNOWN VALUE\n"`. -/
  | val_unknown
  /-- Line 303: `"\n"`. -/
  | val_newline
  deriving DecidableEq, Repr

/-- Conversion `%lx` and `%x`: lowercase hexadecimal digits, no padding. -/
def fmt_hex (n : Nat) : String := String.mk (Nat.toDigits 16 n)

/-- Conversion `%x` applied to an `int`: the argument is read as an `unsigned int`. -/
def fmt_x (i : Int) : String := fmt_hex (i % 2 ^ 32).toNat

/-- Conversion `%ld` applied to a `size_t`: the argument is read as a (signed) `long`. -/
def fmt_ld (n : Nat) : String :=
  if n % 2 ^ 64 < 2 ^ 63 then toString (n % 2 ^ 64) else "-" ++ toString (2 ^ 64 - n % 2 ^ 64)

/-- Conversion `%20s`: the string right-aligned in a field of 20 bytes, padded with blanks on the
left; a longer string is printed whole. -/
def fmt_s20 (s : String) : String :=
  String.mk (List.replicate (20 - s.utf8ByteSize) ' ') ++ s

/-- The bytes one `printf` call writes. -/
def Printf.render : Printf → String
  | .cfg_spec name off nbits label =>
      "    " ++ name ++ ": from bit " ++ fmt_ld off ++ " for " ++ fmt_ld nbits ++ " bits ("
        ++ label ++ ")\n"
  | .cfg_value name flags => "    " ++ fmt_s20 name ++ " = 0x" ++ fmt_x flags ++ "\n"
  | .cfg_head name => name ++ ":\n"
  | .val_head value name => "value 0x" ++ fmt_hex value ++ " as " ++ name ++ ":\n"
  | .val_label name => "    " ++ fmt_s20 name ++ ": "
  | .val_raw decoded => "0x" ++ fmt_hex decoded ++ "\n"
  | .val_enum name => name ++ "\n"
  | .val_flag name => name ++ " "
  | .val_unknown => "UNKNOWN VALUE\n"
  | .val_newline => "\n"

/-- The bytes a sequence of `printf` calls writes to standard output. -/
def stdout_text : List Printf → String
  | [] => ""
  | e :: t => e.render ++ stdout_text t

/-! ## Describing a layout (lines 218-257) -/

/-- Function `v8bitfield_type_label` (lines 241-257). -/
def v8bitfield_type_label (bp : v8_bitfield_spec_t) : String :=
  if bp.vb_type = V8_BITFIELD_RAW then "raw value"
  else if bp.vb_type = V8_BITFIELD_ENUM then "exclusive values"
  else if bp.vb_type = V8_BITFIELD_FLAGS then "overlapping flags"
  else "unknown"

/-- The loop of lines 225-228 from slot `i` on, given the slots `vb_values[i..]`.  Running off the
array without meeting a `NULL` name is a read out of bounds. -/
def v8bitfield_dumpcfg_one_loop : List v8_enumvalue_t → Option (List Printf)
  | [] => none
  | vp :: rest =>
    match vp.vv_name with
    | none => some []
    | some name =>
      (v8bitfield_dumpcfg_one_loop rest).map (fun t => Printf.cfg_value name vp.vv_flags :: t)

/-- Function `v8bitfield_dumpcfg_one` (lines 218-229). -/
def v8bitfield_dumpcfg_one (bp : v8_bitfield_spec_t) : Option (List Printf) :=
  (v8bitfield_dumpcfg_one_loop bp.vb_values).map (fun t =>
    Printf.cfg_spec bp.vb_name bp.vb_off bp.vb_nbits (v8bitfield_type_label bp) :: t)

/-- The loop of lines 236-238 from slot `i` on, given the slots `vv_descs[i..]`. -/
def v8bitfield_dumpcfg_loop : List (Option v8_bitfield_spec_t) → Option (List Printf)
  | [] => none
  | none :: _ => some []
  | some bp :: rest =>
    (v8bitfield_dumpcfg_one bp).bind (fun t =>
      (v8bitfield_dumpcfg_loop rest).map (fun u => t ++ u))

/-- Function `v8bitfield_dumpcfg` (lines 231-239). -/
def v8bitfield_dumpcfg (vp : v8_bitfield_value_t) : Option (List Printf) :=
  (v8bitfield_dumpcfg_loop vp.vv_descs).map (fun t => Printf.cfg_head vp.vv_name :: t)

/-! ## Decoding a word (lines 259-304) -/

/-- Conversion of an `int` to `unsigned long`, as C does before comparing or and-ing the two. -/
def ulong_of_int (i : Int) : Nat := (i % 2 ^ 64).toNat

/-- Line 275, `mask = (1 << vp->vb_nbits) - 1`: computed in `int`, then widened.  The shift is
defined only when `1 << nbits` fits an `int`. -/
def v8bitfield_mask (vb_nbits : Nat) : Option Nat :=
  if vb_nbits ≤ 30 then some ((1 <<< vb_nbits) - 1) else none

/-- Lines 275-276, the value of `decoded`.  A right shift of an `unsigned long` is defined only
for amounts below 64. -/
def v8bitfield_decoded (vp : v8_bitfield_spec_t) (value : Nat) : Option Nat :=
  (v8bitfield_mask vp.vb_nbits).bind (fun mask =>
    if vp.vb_off < 64 then some ((value >>> vp.vb_off) &&& mask) else none)

/-- The loop of lines 284-298 from slot `i` on, given the slots `vb_values[i..]`, followed by
lines 300-303 when the loop ends at a `NULL` name. -/
def v8bitfield_dump_value_one_loop (vb_type : v8_bitfield_type_t) (decoded : Nat) :
    List v8_enumvalue_t → Option (List Printf)
  | [] => none
  | v :: rest =>
    match v.vv_name with
    | none =>
      if vb_type = V8_BITFIELD_ENUM then some [Printf.val_unknown] else some [Printf.val_newline]
    | some name =>
      if vb_type = V8_BITFIELD_ENUM then
        if decoded ≠ ulong_of_int v.vv_flags then
          v8bitfield_dump_value_one_loop vb_type decoded rest
        else some [Printf.val_enum name]
      else if vb_type ≠ V8_BITFIELD_FLAGS then none
      else if decoded &&& ulong_of_int v.vv_flags = 0 then
        v8bitfield_dump_value_one_loop vb_type decoded rest
      else
        (v8bitfield_dump_value_one_loop vb_type decoded rest).map (fun t =>
          Printf.val_flag name :: t)

/-- Function `v8bitfield_dump_value_one` (lines 269-304). -/
def v8bitfield_dump_value_one (vp : v8_bitfield_spec_t) (value : Nat) : Option (List Printf) :=
  (v8bitfield_decoded vp value).bind (fun decoded =>
    if vp.vb_type = V8_BITFIELD_RAW then
      some [Printf.val_label vp.vb_name, Printf.val_raw decoded]
    else
      (v8bitfield_dump_value_one_loop vp.vb_type decoded vp.vb_values).map (fun t =>
        Printf.val_label vp.vb_name :: t))

/-- The loop of lines 264-266 from slot `i` on, given the slots `vv_descs[i..]`. -/
def v8bitfield_dump_value_loop (value : Nat) :
    List (Option v8_bitfield_spec_t) → Option (List Printf)
  | [] => none
  | none :: _ => some []
  | some bp :: rest =>
    (v8bitfield_dump_value_one bp value).bind (fun t =>
      (v8bitfield_dump_value_loop value rest).map (fun u => t ++ u))

/-- Function `v8bitfield_dump_value` (lines 259-267). -/
def v8bitfield_dump_value (vp : v8_bitfield_value_t) (value : Nat) : Option (List Printf) :=
  (v8bitfield_dump_value_loop value vp.vv_descs).map (fun t =>
    Printf.val_head value vp.vv_name :: t)

/-! ## The entry point (lines 185-216) -/

/-- What a run of the program leaves behind: the exit status, the `printf` calls made on standard
output and the message `errx` wrote to standard error, if any. -/
structure Outcome where
  status : Nat
  out : List Printf
  err : Option String
  deriving DecidableEq, Repr

/-- Function `main` (lines 185-216).  `argv` holds `argv[0] .. argv[argc-1]`.  The C library's
`strtoul(valstr, &endptr, 0)` is a parameter: it gives the number read and the part of `valstr`
left unread, the string `endptr` points at. -/
def main (strtoul : String → Nat × String) (argv : List String) : Option Outcome :=
  let argc := argv.length
  if argc < 2 ∨ argc > 3 ∨ (argc = 3 ∧ argv.getD 1 "" ≠ "-c") then
    some ⟨EXIT_USAGE, [], some ("usage: " ++ argv.getD 0 "" ++ " [-c] VALUE")⟩
  else
    let valstr := if argc = 3 then argv.getD 2 "" else argv.getD 1 ""
    let opt_c := if argc = 3 then true else false
    let value := (strtoul valstr).1
    let endptr := (strtoul valstr).2
    if endptr ≠ "" then
      some ⟨EXIT_USAGE, [], some ("non-numeric value: \"" ++ valstr ++ "\"")⟩
    else
      let value := value >>> 1
      (if opt_c then v8bitfield_dumpcfg v8_012_property_details else some []).bind (fun cfg =>
        (v8bitfield_dump_value v8_012_property_details value).map (fun dump =>
          ⟨0, cfg ++ dump, none⟩))

/-! ## The C library's `strtoul` -/

/-- The constant `ULONG_MAX` of a 64-bit `unsigned long`. -/
def ULONG_MAX : Nat := 2 ^ 64 - 1

/-- The C library's `isspace` in the "C" locale: blank, `\t`, `\n`, `\v`, `\f`, `\r`. -/
def isspace (c : Char) : Bool :=
  c = ' ' || c = Char.ofNat 9 || c = Char.ofNat 10 || c = Char.ofNat 11 || c = Char.ofNat 12
    || c = Char.ofNat 13

/-- The value of a character as a digit: `0`-`9`, then the letters of either case from 10 on. -/
def digit_value (c : Char) : Option Nat :=
  if '0' ≤ c ∧ c ≤ '9' then some (c.toNat - '0'.toNat)
  else if 'a' ≤ c ∧ c ≤ 'z' then some (c.toNat - 'a'.toNat + 10)
  else if 'A' ≤ c ∧ c ≤ 'Z' then some (c.toNat - 'A'.toNat + 10)
  else none

/-- The character is a digit of the base. -/
def is_digit (base : Nat) (c : Char) : Bool :=
  match digit_value c with
  | some d => d < base
  | none => false

/-- The digits of `strtoul`: the longest run of digits of the base, accumulated on `acc`, and the
characters left. -/
def strtoul_digits (base : Nat) : List Char → Nat → Nat × List Char
  | [], acc => (acc, [])
  | c :: cs, acc =>
    match digit_value c with
    | some d => if d < base then strtoul_digits base cs (acc * base + d) else (acc, c :: cs)
    | none => (acc, c :: cs)

/-- The text has the prefix `0x` or `0X` followed by a hexadecimal digit. -/
def strtoul_hex : List Char → Bool
  | '0' :: x :: h :: _ => (x = 'x' || x = 'X') && is_digit 16 h
  | _ => false

/-- The number of `strtoul` with base 0, sign removed: the base is 16 after `0x` or `0X`, 8 after
a leading `0`, 10 otherwise; `none` when no digit can be read. -/
def strtoul_number (s : List Char) : Option (Nat × List Char) :=
  let base := if strtoul_hex s then 16 else if s.head? = some '0' then 8 else 10
  let digits := if strtoul_hex s then s.drop 2 else s
  match digits with
  | [] => none
  | c :: _ => if is_digit base c then some (strtoul_digits base digits 0) else none

/-- The C library function `strtoul(nptr, &endptr, 0)` after ISO C 7.22.1.4, in the "C" locale:
white space is skipped, a sign is read, then the number.  The result is the value and the string
`endptr` points at.  With no number to read the value is 0 and `endptr` is `nptr`; a number beyond
`ULONG_MAX` gives `ULONG_MAX`; after a minus sign the value is negated in `unsigned long`. -/
def strtoul (nptr : String) : Nat × String :=
  let s := nptr.data.dropWhile isspace
  let negative := s.head? = some '-'
  let s := if s.head? = some '-' ∨ s.head? = some '+' then s.tail else s
  match strtoul_number s with
  | none => (0, nptr)
  | some (n, rest) =>
    (if n > ULONG_MAX then ULONG_MAX else if negative then (2 ^ 64 - n) % 2 ^ 64 else n,
      String.mk rest)

/-! ## Integer literals -/

/-- An integer literal in C auto-base syntax: `0x` or `0X` and hexadecimal digits, or a leading
`0` and octal digits, or decimal digits not starting with `0`. -/
def is_literal (s : List Char) : Prop :=
  (∃ x ds, s = '0' :: x :: ds ∧ (x = 'x' ∨ x = 'X') ∧ ds ≠ []
      ∧ ∀ c ∈ ds, is_digit 16 c = true)
  ∨ (∃ ds, s = '0' :: ds ∧ ∀ c ∈ ds, is_digit 8 c = true)
  ∨ (s ≠ [] ∧ s.head? ≠ some '0' ∧ ∀ c ∈ s, is_digit 10 c = true)

/-- An integer literal after optional white space and an optional sign. -/
def is_signed_literal (s : List Char) : Prop :=
  ∃ ws sg body, s = ws ++ sg ++ body ∧ (∀ c ∈ ws, isspace c = true)
    ∧ (sg = [] ∨ sg = ['+'] ∨ sg = ['-']) ∧ is_literal body

/-! ## Vocabulary of the statements -/

/-- The declared symbols of a table: the slots before the first `NULL` name, in order. -/
def symbols : List v8_enumvalue_t → List (String × Int)
  | [] => []
  | v :: rest =>
    match v.vv_name with
    | none => []
    | some name => (name, v.vv_flags) :: symbols rest

/-- A symbol table is terminated when one of its slots has a `NULL` name. -/
def values_terminated (vs : List v8_enumvalue_t) : Prop := ∃ v ∈ vs, v.vv_name = none

/-- The declared specs of a layout: the slots before the first `NULL` pointer, in order. -/
def specs : List (Option v8_bitfield_spec_t) → List v8_bitfield_spec_t
  | [] => []
  | none :: _ => []
  | some bp :: rest => bp :: specs rest

/-- A layout is terminated when one of its slots is the `NULL` pointer. -/
def descs_terminated (ds : List (Option v8_bitfield_spec_t)) : Prop := none ∈ ds

instance (vs : List v8_enumvalue_t) : Decidable (values_terminated vs) := by
  unfold values_terminated; infer_instance

instance (ds : List (Option v8_bitfield_spec_t)) : Decidable (descs_terminated ds) := by
  unfold descs_terminated; infer_instance

/-! ## Well-formed specs and layouts -/

/-- A spec on which `v8bitfield_dump_value_one` stays within defined behaviour: the width fits the
`int` shift, the offset fits the word shift, the symbol table has its sentinel and the type is one
of the three enumerators. -/
def spec_ok (s : v8_bitfield_spec_t) : Prop :=
  s.vb_nbits ≤ 30 ∧ s.vb_off < 64 ∧ values_terminated s.vb_values
    ∧ (s.vb_type = V8_BITFIELD_RAW ∨ s.vb_type = V8_BITFIELD_ENUM
        ∨ s.vb_type = V8_BITFIELD_FLAGS)

/-- A layout whose pointer array has its sentinel and whose declared specs are all well formed. -/
def layout_ok (vp : v8_bitfield_value_t) : Prop :=
  descs_terminated vp.vv_descs ∧ ∀ s ∈ specs vp.vv_descs, spec_ok s

instance (s : v8_bitfield_spec_t) : Decidable (spec_ok s) := by
  unfold spec_ok; infer_instance

instance (vp : v8_bitfield_value_t) : Decidable (layout_ok vp) := by
  unfold layout_ok; infer_instance

/-! ## Reading the output -/

/-- A `printf` call ends a line when the last byte it writes is a newline. -/
def Printf.ends_line (e : Printf) : Bool := e.render.data.getLast? == some '\n'

/-- The field names a description announces: the first argument of each call of line 223. -/
def cfg_names (t : List Printf) : List String :=
  t.filterMap (fun e => match e with
    | .cfg_spec name _ _ _ => some name
    | _ => none)

/-- The field names a decode labels its lines with: the argument of each call of line 278. -/
def val_names (t : List Printf) : List String :=
  t.filterMap (fun e => match e with
    | .val_label name => some name
    | _ => none)

/-- The calls `l` make up one line labelled `name`: the label first, the only line end last. -/
def one_line (name : String) (l : List Printf) : Prop :=
  ∃ body last, l = Printf.val_label name :: (body ++ [last])
    ∧ last.ends_line = true
    ∧ (∀ e ∈ Printf.val_label name :: body, e.ends_line = false)
    ∧ val_names (body ++ [last]) = []

/-- The number of newline bytes in a string. -/
def newlines (s : String) : Nat := s.data.count '\n'

/-- No name of the layout holds a newline byte: not the name of the layout, nor that of a
declared spec, nor that of a declared symbol. -/
def names_single_line (vp : v8_bitfield_value_t) : Prop :=
  newlines vp.vv_name = 0
    ∧ ∀ s ∈ specs vp.vv_descs, newlines s.vb_name = 0
        ∧ ∀ y ∈ symbols s.vb_values, newlines y.1 = 0

instance (vp : v8_bitfield_value_t) : Decidable (names_single_line vp) := by
  unfold names_single_line; infer_instance

/-! ## Specs used as test inputs -/

/-- A spec with two symbols of the same value, used to exercise the first-match rule. -/
def spec_twins : v8_bitfield_spec_t :=
  { vb_name := "Twins", vb_type := V8_BITFIELD_ENUM, vb_off := 0, vb_nbits := 2,
    vb_values := values16 [sym "ZERO" 0, sym "FIRST" 1, sym "SECOND" 1, null_value] }

/-- A FLAGS spec whose symbols are declared in descending numeric order. -/
def spec_descending : v8_bitfield_spec_t :=
  { vb_name := "Descending", vb_type := V8_BITFIELD_FLAGS, vb_off := 1, vb_nbits := 3,
    vb_values := values16 [sym "HIGH" 4, sym "MID" 2, sym "LOW" 1, null_value] }

/-! ## The loops, in closed form -/

theorem values_terminated_tail {v : v8_enumvalue_t} {rest : List v8_enumvalue_t} {name : String}
    (hv : v.vv_name = some name) (ht : values_terminated (v :: rest)) :
    values_terminated rest := by
  rcases ht with ⟨x, hx, hn⟩
  rcases List.mem_cons.1 hx with rfl | hx
  · simp [hv] at hn
  · exact ⟨x, hx, hn⟩

/-- In ENUM mode the symbol loop prints the first declared symbol equal to `decoded`, or the
unknown marker. -/
theorem dump_value_one_loop_enum (decoded : Nat) (vs : List v8_enumvalue_t)
    (ht : values_terminated vs) :
    v8bitfield_dump_value_one_loop V8_BITFIELD_ENUM decoded vs = some [
      match (symbols vs).find? (fun s => ulong_of_int s.2 == decoded) with
      | some s => Printf.val_enum s.1
      | none => Printf.val_unknown] := by
  induction vs with
  | nil => simp [values_terminated] at ht
  | cons v rest ih =>
    rcases hv : v.vv_name with _ | name
    · simp [v8bitfield_dump_value_one_loop, symbols, hv]
    · have ht2 := values_terminated_tail hv ht
      by_cases h : decoded = ulong_of_int v.vv_flags
      · simp [v8bitfield_dump_value_one_loop, symbols, hv, h]
      · have h2 : ¬ ulong_of_int v.vv_flags = decoded := fun e => h e.symm
        simp [v8bitfield_dump_value_one_loop, symbols, hv, h, h2, ih ht2]

/-- In FLAGS mode the symbol loop prints every declared symbol that shares a bit with `decoded`,
in declared order, then the newline. -/
theorem dump_value_one_loop_flags (decoded : Nat) (vs : List v8_enumvalue_t)
    (ht : values_terminated vs) :
    v8bitfield_dump_value_one_loop V8_BITFIELD_FLAGS decoded vs = some
      (((symbols vs).filter (fun s => decoded &&& ulong_of_int s.2 != 0)).map
        (fun s => Printf.val_flag s.1) ++ [Printf.val_newline]) := by
  induction vs with
  | nil => simp [values_terminated] at ht
  | cons v rest ih =>
    rcases hv : v.vv_name with _ | name
    · simp [v8bitfield_dump_value_one_loop, symbols, hv]
    · have ht2 := values_terminated_tail hv ht
      by_cases h : decoded &&& ulong_of_int v.vv_flags = 0
      · simp [v8bitfield_dump_value_one_loop, symbols, hv, h, ih ht2]
      · simp [v8bitfield_dump_value_one_loop, symbols, hv, h, ih ht2]

/-- The symbol loop of the description prints one line per declared symbol. -/
theorem dumpcfg_one_loop_eq (vs : List v8_enumvalue_t) (ht : values_terminated vs) :
    v8bitfield_dumpcfg_one_loop vs
      = some ((symbols vs).map (fun s => Printf.cfg_value s.1 s.2)) := by
  induction vs with
  | nil => simp [values_terminated] at ht
  | cons v rest ih =>
    rcases hv : v.vv_name with _ | name
    · simp [v8bitfield_dumpcfg_one_loop, symbols, hv]
    · simp [v8bitfield_dumpcfg_one_loop, symbols, hv, ih (values_terminated_tail hv ht)]

/-- The mask of a field of at most 30 bits. -/
theorem mask_eq (nbits : Nat) (h : nbits ≤ 30) : v8bitfield_mask nbits = some (2 ^ nbits - 1) := by
  simp [v8bitfield_mask, h, Nat.shiftLeft_eq]

/-- The extracted value of a field of at most 30 bits at an offset below 64. -/
theorem decoded_eq (vp : v8_bitfield_spec_t) (value : Nat) (ho : vp.vb_off < 64)
    (hn : vp.vb_nbits ≤ 30) :
    v8bitfield_decoded vp value = some ((value >>> vp.vb_off) &&& (2 ^ vp.vb_nbits - 1)) := by
  simp [v8bitfield_decoded, mask_eq _ hn, ho]

/-! ## Field extraction -/

/-- C1: for every word, every bit offset `o < 64` and every bit width `w ≤ 30` (the widths
`1 ≤ w ≤ 30` among them), the value `decoded` of lines 275-276 is `(word >> o) & (2^w - 1)`,
which is `⌊word / 2^o⌋ mod 2^w` and so lies below `2^w`; it is the value
`v8bitfield_dump_value_one` hands to its `printf` for a RAW field and to its symbol loop
otherwise.  The statement holds for every natural number, the 64-bit words among them. -/
theorem field_extraction (vp : v8_bitfield_spec_t) (value : Nat)
    (ho : vp.vb_off < 64) (h30 : vp.vb_nbits ≤ 30) :
    v8bitfield_decoded vp value = some ((value >>> vp.vb_off) &&& (2 ^ vp.vb_nbits - 1))
    ∧ (value >>> vp.vb_off) &&& (2 ^ vp.vb_nbits - 1) = (value / 2 ^ vp.vb_off) % 2 ^ vp.vb_nbits
    ∧ (value / 2 ^ vp.vb_off) % 2 ^ vp.vb_nbits < 2 ^ vp.vb_nbits
    ∧ v8bitfield_dump_value_one vp value =
        (if vp.vb_type = V8_BITFIELD_RAW then
          some [Printf.val_label vp.vb_name,
            Printf.val_raw ((value / 2 ^ vp.vb_off) % 2 ^ vp.vb_nbits)]
        else
          (v8bitfield_dump_value_one_loop vp.vb_type
            ((value / 2 ^ vp.vb_off) % 2 ^ vp.vb_nbits) vp.vb_values).map
              (fun t => Printf.val_label vp.vb_name :: t)) := by
  have hmod : (value >>> vp.vb_off) &&& (2 ^ vp.vb_nbits - 1)
      = (value / 2 ^ vp.vb_off) % 2 ^ vp.vb_nbits := by
    rw [Nat.and_pow_two_sub_one_eq_mod, Nat.shiftRight_eq_div_pow]
  refine ⟨decoded_eq vp value ho h30, hmod, Nat.mod_lt _ (by positivity), ?_⟩
  simp [v8bitfield_dump_value_one, decoded_eq vp value ho h30, hmod]

/-- Witness of C1: the FieldIndex field (offset 20, width 10) of the word `0x3ff00000`. -/
theorem field_extraction_witness :
    (v8_012_property_fieldindex.vb_off < 64 ∧ v8_012_property_fieldindex.vb_nbits ≤ 30)
    ∧ v8bitfield_decoded v8_012_property_fieldindex 0x3ff00000 = some 0x3ff :=
  ⟨by decide,
    (field_extraction v8_012_property_fieldindex 0x3ff00000 (by decide) (by decide)).1⟩

/-! ## The line of one field -/

/-- The line of a RAW field. -/
theorem dump_value_one_raw (vp : v8_bitfield_spec_t) (value : Nat)
    (hty : vp.vb_type = V8_BITFIELD_RAW) (ho : vp.vb_off < 64) (hn : vp.vb_nbits ≤ 30) :
    v8bitfield_dump_value_one vp value = some [Printf.val_label vp.vb_name,
      Printf.val_raw ((value >>> vp.vb_off) &&& (2 ^ vp.vb_nbits - 1))] := by
  simp [v8bitfield_dump_value_one, decoded_eq vp value ho hn, hty]

/-- The line of an ENUM field. -/
theorem dump_value_one_enum (vp : v8_bitfield_spec_t) (value : Nat)
    (hty : vp.vb_type = V8_BITFIELD_ENUM) (ho : vp.vb_off < 64) (hn : vp.vb_nbits ≤ 30)
    (ht : values_terminated vp.vb_values) :
    v8bitfield_dump_value_one vp value = some [Printf.val_label vp.vb_name,
      match (symbols vp.vb_values).find?
        (fun s => ulong_of_int s.2 == (value >>> vp.vb_off) &&& (2 ^ vp.vb_nbits - 1)) with
      | some s => Printf.val_enum s.1
      | none => Printf.val_unknown] := by
  simp [v8bitfield_dump_value_one, decoded_eq vp value ho hn, hty,
    dump_value_one_loop_enum _ _ ht]

/-- The line of a FLAGS field. -/
theorem dump_value_one_flags (vp : v8_bitfield_spec_t) (value : Nat)
    (hty : vp.vb_type = V8_BITFIELD_FLAGS) (ho : vp.vb_off < 64) (hn : vp.vb_nbits ≤ 30)
    (ht : values_terminated vp.vb_values) :
    v8bitfield_dump_value_one vp value = some (Printf.val_label vp.vb_name ::
      (((symbols vp.vb_values).filter (fun s =>
          ((value >>> vp.vb_off) &&& (2 ^ vp.vb_nbits - 1)) &&& ulong_of_int s.2 != 0)).map
        (fun s => Printf.val_flag s.1) ++ [Printf.val_newline])) := by
  simp [v8bitfield_dump_value_one, decoded_eq vp value ho hn, hty,
    dump_value_one_loop_flags _ _ ht]

/-- On a well-formed spec `v8bitfield_dump_value_one` returns. -/
theorem dump_value_one_returns (vp : v8_bitfield_spec_t) (value : Nat) (h : spec_ok vp) :
    ∃ t, v8bitfield_dump_value_one vp value = some t := by
  obtain ⟨hn, ho, ht, hty | hty | hty⟩ := h
  · exact ⟨_, dump_value_one_raw vp value hty ho hn⟩
  · exact ⟨_, dump_value_one_enum vp value hty ho hn ht⟩
  · exact ⟨_, dump_value_one_flags vp value hty ho hn ht⟩

/-! ## The entry point on a well-formed command line -/

/-- A run `PROGRAM VALUE` whose VALUE is read whole decodes the number read, shifted right by one
bit, and exits with status 0. -/
theorem main_plain (strtoul : String → Nat × String) (prog arg : String) (v : Nat)
    (h : strtoul arg = (v, "")) :
    main strtoul [prog, arg]
      = (v8bitfield_dump_value v8_012_property_details (v >>> 1)).map
          (fun dump => ⟨0, dump, none⟩) := by
  simp [main, h]

/-- A run `PROGRAM -c VALUE` whose VALUE is read whole prints the description, then decodes the
number read, shifted right by one bit, and exits with status 0. -/
theorem main_opt_c (strtoul : String → Nat × String) (prog arg : String) (v : Nat)
    (h : strtoul arg = (v, "")) :
    main strtoul [prog, "-c", arg]
      = (v8bitfield_dumpcfg v8_012_property_details).bind (fun cfg =>
          (v8bitfield_dump_value v8_012_property_details (v >>> 1)).map
            (fun dump => ⟨0, cfg ++ dump, none⟩)) := by
  simp [main, h]

/-! ## RAW fields of the wired layout -/

/-- C2: for every number `v` that `strtoul` reads from the whole VALUE argument, with or without
`-c`, the decode part of the output is the header for `v >> 1` followed by the seven field lines,
and the lines of the RAW fields DictionaryStorage (7/24), DescriptorPointer (10/10) and FieldIndex
(20/10) print `(v >> (o+1)) & ((1 << w) - 1)`, rendered as `0x` followed by its lowercase
hexadecimal digits. -/
theorem main_raw_fields (strtoul : String → Nat × String) (prog arg : String) (v : Nat)
    (h : strtoul arg = (v, "")) :
    ∃ t0 t1 t2 t4 cfg,
      v8bitfield_dump_value_one v8_012_property_type (v >>> 1) = some t0
      ∧ v8bitfield_dump_value_one v8_012_property_attr (v >>> 1) = some t1
      ∧ v8bitfield_dump_value_one v8_012_property_deleted (v >>> 1) = some t2
      ∧ v8bitfield_dump_value_one v8_012_property_repr (v >>> 1) = some t4
      ∧ v8bitfield_dumpcfg v8_012_property_details = some cfg
      ∧ main strtoul [prog, arg] = some ⟨0,
          Printf.val_head (v >>> 1) "PropertyDetails" :: (t0 ++ t1 ++ t2
            ++ [Printf.val_label "DictionaryStorage",
                Printf.val_raw ((v >>> (7 + 1)) &&& ((1 <<< 24) - 1))]
            ++ t4
            ++ [Printf.val_label "DescriptorPointer",
                Printf.val_raw ((v >>> (10 + 1)) &&& ((1 <<< 10) - 1))]
            ++ [Printf.val_label "FieldIndex",
                Printf.val_raw ((v >>> (20 + 1)) &&& ((1 <<< 10) - 1))]), none⟩
      ∧ main strtoul [prog, "-c", arg] = some ⟨0,
          cfg ++ Printf.val_head (v >>> 1) "PropertyDetails" :: (t0 ++ t1 ++ t2
            ++ [Printf.val_label "DictionaryStorage",
                Printf.val_raw ((v >>> (7 + 1)) &&& ((1 <<< 24) - 1))]
            ++ t4
            ++ [Printf.val_label "DescriptorPointer",
                Printf.val_raw ((v >>> (10 + 1)) &&& ((1 <<< 10) - 1))]
            ++ [Printf.val_label "FieldIndex",
                Printf.val_raw ((v >>> (20 + 1)) &&& ((1 <<< 10) - 1))]), none⟩
      ∧ ∀ d, (Printf.val_raw d).render = "0x" ++ String.mk (Nat.toDigits 16 d) ++ "\n" := by
  obtain ⟨t0, h0⟩ := dump_value_one_returns v8_012_property_type (v >>> 1) (by decide)
  obtain ⟨t1, h1⟩ := dump_value_one_returns v8_012_property_attr (v >>> 1) (by decide)
  obtain ⟨t2, h2⟩ := dump_value_one_returns v8_012_property_deleted (v >>> 1) (by decide)
  obtain ⟨t4, h4⟩ := dump_value_one_returns v8_012_property_repr (v >>> 1) (by decide)
  have h3 := dump_value_one_raw v8_012_property_dictstorage (v >>> 1) rfl (by decide) (by decide)
  have h5 := dump_value_one_raw v8_012_property_descptr (v >>> 1) rfl (by decide) (by decide)
  have h6 := dump_value_one_raw v8_012_property_fieldindex (v >>> 1) rfl (by decide) (by decide)
  obtain ⟨cfg, hcfg⟩ : ∃ cfg, v8bitfield_dumpcfg v8_012_property_details = some cfg :=
    Option.isSome_iff_exists.1 (by decide)
  have hdump : v8bitfield_dump_value v8_012_property_details (v >>> 1) = some
      (Printf.val_head (v >>> 1) "PropertyDetails" :: (t0 ++ t1 ++ t2
        ++ [Printf.val_label "DictionaryStorage",
            Printf.val_raw ((v >>> (7 + 1)) &&& ((1 <<< 24) - 1))]
        ++ t4
        ++ [Printf.val_label "DescriptorPointer",
            Printf.val_raw ((v >>> (10 + 1)) &&& ((1 <<< 10) - 1))]
        ++ [Printf.val_label "FieldIndex",
            Printf.val_raw ((v >>> (20 + 1)) &&& ((1 <<< 10) - 1))])) := by
    have e3 : v >>> (7 + 1) = v >>> 1 >>> 7 := by rw [Nat.add_comm, Nat.shiftRight_add]
    have e5 : v >>> (10 + 1) = v >>> 1 >>> 10 := by rw [Nat.add_comm, Nat.shiftRight_add]
    have e6 : v >>> (20 + 1) = v >>> 1 >>> 20 := by rw [Nat.add_comm, Nat.shiftRight_add]
    rw [e3, e5, e6]
    simp only [v8bitfield_dump_value, v8_012_property_details, descs32, List.length_cons,
      List.length_nil, List.cons_append, List.nil_append, v8bitfield_dump_value_loop, h0, h1, h2,
      h3, h4, h5, h6, Option.bind_some, Option.map_some', Option.some_bind, Option.bind,
      Option.map]
    simp [v8_012_property_dictstorage, v8_012_property_descptr, v8_012_property_fieldindex,
      Nat.shiftLeft_eq]
  refine ⟨t0, t1, t2, t4, cfg, h0, h1, h2, h4, hcfg, ?_, ?_, fun d => rfl⟩
  · rw [main_plain strtoul prog arg v h, hdump]
    rfl
  · rw [main_opt_c strtoul prog arg v h, hdump, hcfg]
    rfl

/-- Witness of C2: the input `0xfffffffe`, read by a `strtoul` that consumes its argument whole. -/
theorem main_raw_fields_witness :
    (fun _ => ((0xfffffffe : Nat), "")) "0xfffffffe" = (0xfffffffe, "")
    ∧ ∃ t0 t1 t2 t4 cfg,
      v8bitfield_dump_value_one v8_012_property_type (0xfffffffe >>> 1) = some t0
      ∧ v8bitfield_dump_value_one v8_012_property_attr (0xfffffffe >>> 1) = some t1
      ∧ v8bitfield_dump_value_one v8_012_property_deleted (0xfffffffe >>> 1) = some t2
      ∧ v8bitfield_dump_value_one v8_012_property_repr (0xfffffffe >>> 1) = some t4
      ∧ v8bitfield_dumpcfg v8_012_property_details = some cfg
      ∧ main (fun _ => (0xfffffffe, "")) ["v8bitfield", "0xfffffffe"] = some ⟨0,
          Printf.val_head 0x7fffffff "PropertyDetails" :: (t0 ++ t1 ++ t2
            ++ [Printf.val_label "DictionaryStorage", Printf.val_raw 0xffffff]
            ++ t4
            ++ [Printf.val_label "DescriptorPointer", Printf.val_raw 0x3ff]
            ++ [Printf.val_label "FieldIndex", Printf.val_raw 0x3ff]), none⟩
      ∧ main (fun _ => (0xfffffffe, "")) ["v8bitfield", "-c", "0xfffffffe"] = some ⟨0,
          cfg ++ Printf.val_head 0x7fffffff "PropertyDetails" :: (t0 ++ t1 ++ t2
            ++ [Printf.val_label "DictionaryStorage", Printf.val_raw 0xffffff]
            ++ t4
            ++ [Printf.val_label "DescriptorPointer", Printf.val_raw 0x3ff]
            ++ [Printf.val_label "FieldIndex", Printf.val_raw 0x3ff]), none⟩
      ∧ ∀ d, (Printf.val_raw d).render = "0x" ++ String.mk (Nat.toDigits 16 d) ++ "\n" :=
  ⟨rfl, main_raw_fields (fun _ => (0xfffffffe, "")) "v8bitfield" "0xfffffffe" 0xfffffffe rfl⟩

/-! ## Rendering of ENUM and FLAGS fields -/

/-- Two predicates that agree on a list find the same element. -/
theorem find?_agree {α : Type} (p q : α → Bool) (l : List α) (h : ∀ x ∈ l, p x = q x) :
    l.find? p = l.find? q := by
  induction l with
  | nil => rfl
  | cons a l ih =>
    have ha : p a = q a := h a (List.mem_cons_self a l)
    have hl : l.find? p = l.find? q := ih (fun x hx => h x (List.mem_cons_of_mem a hx))
    simp [List.find?_cons, ha, hl]

/-- An extracted value lies below `2^30`. -/
theorem decoded_lt (vp : v8_bitfield_spec_t) (value decoded : Nat)
    (hd : v8bitfield_decoded vp value = some decoded) : decoded < 2 ^ 30 := by
  unfold v8bitfield_decoded v8bitfield_mask at hd
  by_cases hn : vp.vb_nbits ≤ 30
  · by_cases ho : vp.vb_off < 64
    · simp [hn, ho, Nat.shiftLeft_eq] at hd
      subst hd
      exact lt_of_lt_of_le (Nat.mod_lt _ (by positivity))
        (Nat.pow_le_pow_right (by decide) hn)
    · simp [hn, ho] at hd
  · simp [hn] at hd

/-- Comparing an extracted value with an `int` after widening is comparing the numbers. -/
theorem ulong_of_int_eq_iff (i : Int) (d : Nat) (hd : d < 2 ^ 63) (h1 : -2 ^ 31 ≤ i)
    (h2 : i < 2 ^ 31) : ulong_of_int i = d ↔ i = (d : Int) := by
  unfold ulong_of_int
  omega

/-- The bytes of a run of flag names followed by the newline. -/
theorem stdout_text_flags (l : List (String × Int)) :
    stdout_text (l.map (fun s => Printf.val_flag s.1) ++ [Printf.val_newline])
      = (l.map (fun s => s.1 ++ " ")).foldr (fun a b => a ++ b) "" ++ "\n" := by
  induction l with
  | nil => rfl
  | cons a l ih =>
    have e : stdout_text (List.map (fun s => Printf.val_flag s.1) (a :: l) ++ [Printf.val_newline])
        = (a.1 ++ " ") ++ stdout_text (List.map (fun s => Printf.val_flag s.1) l
            ++ [Printf.val_newline]) := rfl
    rw [e, ih, List.map_cons, List.foldr_cons, String.append_assoc (a.1 ++ " ")]

/-- C3: for every ENUM spec, whatever its symbol table (symbols sharing a value included), and
every extracted value, `v8bitfield_dump_value_one` makes exactly one `printf` call after the one
for the field label: it prints the name of the first symbol in declared order whose value equals
the extracted value, or `UNKNOWN VALUE` when no symbol has that value. -/
theorem enum_rendering (vp : v8_bitfield_spec_t) (value decoded : Nat)
    (hty : vp.vb_type = V8_BITFIELD_ENUM)
    (ht : values_terminated vp.vb_values)
    (hint : ∀ s ∈ symbols vp.vb_values, -2 ^ 31 ≤ s.2 ∧ s.2 < 2 ^ 31)
    (hd : v8bitfield_decoded vp value = some decoded) :
    v8bitfield_dump_value_one vp value = some [Printf.val_label vp.vb_name,
      match (symbols vp.vb_values).find? (fun s => s.2 == (decoded : Int)) with
      | some s => Printf.val_enum s.1
      | none => Printf.val_unknown]
    ∧ (∀ name, (Printf.val_enum name).render = name ++ "\n")
    ∧ Printf.val_unknown.render = "UNKNOWN VALUE\n" := by
  refine ⟨?_, fun _ => rfl, rfl⟩
  have hlt : decoded < 2 ^ 63 := lt_trans (decoded_lt vp value decoded hd) (by decide)
  have hfind : (symbols vp.vb_values).find? (fun s => s.2 == (decoded : Int))
      = (symbols vp.vb_values).find? (fun s => ulong_of_int s.2 == decoded) := by
    apply find?_agree
    intro s hs
    have hi := hint s hs
    have hiff := ulong_of_int_eq_iff s.2 decoded hlt hi.1 hi.2
    by_cases h : s.2 = (decoded : Int)
    · have h1 : ulong_of_int s.2 = decoded := hiff.2 h
      rw [show (s.2 == (decoded : Int)) = true from beq_iff_eq.2 h,
        show (ulong_of_int s.2 == decoded) = true from beq_iff_eq.2 h1]
    · have h2 : ¬ ulong_of_int s.2 = decoded := fun e => h (hiff.1 e)
      simp [h, h2]
  rw [hfind]
  simp [v8bitfield_dump_value_one, hd, hty, dump_value_one_loop_enum _ _ ht]

/-- Witness of C3: with two symbols of value 1, the word 5 (extracted value 1) prints the first
of them only. -/
theorem enum_rendering_witness :
    (spec_twins.vb_type = V8_BITFIELD_ENUM
      ∧ values_terminated spec_twins.vb_values
      ∧ (∀ s ∈ symbols spec_twins.vb_values, -2 ^ 31 ≤ s.2 ∧ s.2 < 2 ^ 31)
      ∧ v8bitfield_decoded spec_twins 5 = some 1)
    ∧ v8bitfield_dump_value_one spec_twins 5
        = some [Printf.val_label "Twins", Printf.val_enum "FIRST"] :=
  ⟨by decide, (enum_rendering spec_twins 5 1 (by decide) (by decide) (by decide) (by decide)).1⟩

/-- C4: for every FLAGS spec and every extracted value, after the field label
`v8bitfield_dump_value_one` prints, in declaration order, the name followed by one blank of
exactly the declared symbols `s` with `(extracted & s.value) != 0` (the `int` widened to
`unsigned long`, as C does), then a newline; when no symbol matches, the newline alone. -/
theorem flags_rendering (vp : v8_bitfield_spec_t) (value decoded : Nat)
    (hty : vp.vb_type = V8_BITFIELD_FLAGS)
    (ht : values_terminated vp.vb_values)
    (hd : v8bitfield_decoded vp value = some decoded) :
    v8bitfield_dump_value_one vp value = some (Printf.val_label vp.vb_name ::
      (((symbols vp.vb_values).filter (fun s => decoded &&& ulong_of_int s.2 != 0)).map
        (fun s => Printf.val_flag s.1) ++ [Printf.val_newline]))
    ∧ stdout_text (((symbols vp.vb_values).filter
          (fun s => decoded &&& ulong_of_int s.2 != 0)).map
        (fun s => Printf.val_flag s.1) ++ [Printf.val_newline])
      = (((symbols vp.vb_values).filter (fun s => decoded &&& ulong_of_int s.2 != 0)).map
          (fun s => s.1 ++ " ")).foldr (fun a b => a ++ b) "" ++ "\n"
    ∧ ((∀ s ∈ symbols vp.vb_values, decoded &&& ulong_of_int s.2 = 0) →
        v8bitfield_dump_value_one vp value
          = some [Printf.val_label vp.vb_name, Printf.val_newline]) := by
  have hmain : v8bitfield_dump_value_one vp value = some (Printf.val_label vp.vb_name ::
      (((symbols vp.vb_values).filter (fun s => decoded &&& ulong_of_int s.2 != 0)).map
        (fun s => Printf.val_flag s.1) ++ [Printf.val_newline])) := by
    simp [v8bitfield_dump_value_one, hd, hty, dump_value_one_loop_flags _ _ ht]
  refine ⟨hmain, stdout_text_flags _, fun hnone => ?_⟩
  have hnil : (symbols vp.vb_values).filter (fun s => decoded &&& ulong_of_int s.2 != 0) = [] := by
    rw [List.filter_eq_nil_iff]
    intro s hs
    simp [hnone s hs]
  rw [hmain, hnil]
  rfl

/-- Witness of C4: the word 10 (extracted value 5) against symbols declared as 4, 2, 1 prints
HIGH before LOW. -/
theorem flags_rendering_witness :
    (spec_descending.vb_type = V8_BITFIELD_FLAGS
      ∧ values_terminated spec_descending.vb_values
      ∧ v8bitfield_decoded spec_descending 10 = some 5)
    ∧ v8bitfield_dump_value_one spec_descending 10
        = some [Printf.val_label "Descending", Printf.val_flag "HIGH", Printf.val_flag "LOW",
            Printf.val_newline] :=
  ⟨by decide, (flags_rendering spec_descending 10 5 (by decide) (by decide) (by decide)).1⟩

/-- C5: for every FLAGS spec and every extracted value, zero included, the names
`v8bitfield_dump_value_one` prints after the field label are those of a sub-sequence of the
declared symbols none of which has the value 0; for the extracted value 0 no name is printed. -/
theorem flags_zero_symbol_never_printed (vp : v8_bitfield_spec_t) (value decoded : Nat)
    (hty : vp.vb_type = V8_BITFIELD_FLAGS)
    (ht : values_terminated vp.vb_values)
    (hd : v8bitfield_decoded vp value = some decoded) :
    ∃ printed : List (String × Int),
      v8bitfield_dump_value_one vp value = some (Printf.val_label vp.vb_name ::
        (printed.map (fun s => Printf.val_flag s.1) ++ [Printf.val_newline]))
      ∧ printed.Sublist (symbols vp.vb_values)
      ∧ (∀ s ∈ printed, s.2 ≠ 0)
      ∧ (decoded = 0 → printed = []) := by
  refine ⟨(symbols vp.vb_values).filter (fun s => decoded &&& ulong_of_int s.2 != 0), ?_,
    List.filter_sublist _, ?_, ?_⟩
  · simp [v8bitfield_dump_value_one, hd, hty, dump_value_one_loop_flags _ _ ht]
  · intro s hs h0
    have hp := (List.mem_filter.1 hs).2
    simp [h0, ulong_of_int] at hp
  · intro h0
    rw [List.filter_eq_nil_iff]
    intro s _
    simp [h0]

/-- Witness of C5: the v0.12 PropertyAttributes field of the word 0 prints no name, NONE
included. -/
theorem flags_zero_symbol_never_printed_witness :
    (v8_012_property_attr.vb_type = V8_BITFIELD_FLAGS
      ∧ values_terminated v8_012_property_attr.vb_values
      ∧ v8bitfield_decoded v8_012_property_attr 0 = some 0)
    ∧ ∃ printed : List (String × Int),
      v8bitfield_dump_value_one v8_012_property_attr 0
        = some (Printf.val_label v8_012_property_attr.vb_name ::
          (printed.map (fun s => Printf.val_flag s.1) ++ [Printf.val_newline]))
      ∧ printed.Sublist (symbols v8_012_property_attr.vb_values)
      ∧ (∀ s ∈ printed, s.2 ≠ 0)
      ∧ ((0 : Nat) = 0 → printed = []) :=
  ⟨by decide,
    flags_zero_symbol_never_printed v8_012_property_attr 0 0 (by decide) (by decide) (by decide)⟩

/-! ## Lines and field names of the output -/

theorem getLast?_data_append (s t : String) (h : t.data ≠ []) :
    (s ++ t).data.getLast? = t.data.getLast? := by
  rw [String.data_append]
  exact List.getLast?_append_of_ne_nil _ h

/-- Which calls end a line: all but the field label and a flag name. -/
theorem ends_line_cases (e : Printf) :
    e.ends_line = (match e with
      | .val_label _ => false
      | .val_flag _ => false
      | _ => true) := by
  cases e <;> simp only [Printf.ends_line, Printf.render] <;>
    first
    | rfl
    | (rw [getLast?_data_append _ _ (by decide)]; rfl)

/-- On a well-formed spec `v8bitfield_dump_value_one` prints one line, labelled with the name of
the spec. -/
theorem dump_value_one_one_line (vp : v8_bitfield_spec_t) (value : Nat) (h : spec_ok vp) :
    ∃ l, v8bitfield_dump_value_one vp value = some l ∧ one_line vp.vb_name l := by
  obtain ⟨hn, ho, ht, hty | hty | hty⟩ := h
  · refine ⟨_, dump_value_one_raw vp value hty ho hn, [], _, rfl, ?_, ?_, rfl⟩
    · rw [ends_line_cases]
    · intro e he
      simp only [List.mem_singleton] at he
      subst he
      rw [ends_line_cases]
  · have key : ∀ r : Option (String × Int), one_line vp.vb_name [Printf.val_label vp.vb_name,
        match r with
        | some s => Printf.val_enum s.1
        | none => Printf.val_unknown] := by
      intro r
      have hlabel : ∀ e ∈ [Printf.val_label vp.vb_name], e.ends_line = false := by
        intro e he
        simp only [List.mem_singleton] at he
        subst he
        rw [ends_line_cases]
      cases r
      · exact ⟨[], _, rfl, by rw [ends_line_cases], hlabel, rfl⟩
      · exact ⟨[], _, rfl, by rw [ends_line_cases], hlabel, rfl⟩
    exact ⟨_, dump_value_one_enum vp value hty ho hn ht, key _⟩
  · refine ⟨_, dump_value_one_flags vp value hty ho hn ht, _, _, rfl, ?_, ?_, ?_⟩
    · rw [ends_line_cases]
    · intro e he
      rcases List.mem_cons.1 he with rfl | he
      · rw [ends_line_cases]
      · obtain ⟨s, _, rfl⟩ := List.mem_map.1 he
        rw [ends_line_cases]
    · rw [val_names, List.filterMap_append, List.filterMap_map]
      simp [Function.comp_def]

/-- The field loop of the decode prints the lines of the declared specs, in declared order. -/
theorem dump_value_loop_lines (value : Nat) (ds : List (Option v8_bitfield_spec_t))
    (hterm : descs_terminated ds) (hok : ∀ s ∈ specs ds, spec_ok s) :
    ∃ lines : List (List Printf),
      v8bitfield_dump_value_loop value ds = some lines.flatten
      ∧ List.Forall₂ (fun s l => v8bitfield_dump_value_one s value = some l
          ∧ one_line s.vb_name l) (specs ds) lines := by
  induction ds with
  | nil => simp [descs_terminated] at hterm
  | cons d rest ih =>
    rcases d with _ | bp
    · exact ⟨[], rfl, List.Forall₂.nil⟩
    · have hterm2 : descs_terminated rest := by
        unfold descs_terminated at hterm ⊢
        simpa using hterm
      have hok2 : ∀ s ∈ specs rest, spec_ok s := fun s hs =>
        hok s (by simp [specs, hs])
      obtain ⟨lines, hl, hf⟩ := ih hterm2 hok2
      obtain ⟨l, hone, hline⟩ := dump_value_one_one_line bp value (hok bp (by simp [specs]))
      refine ⟨l :: lines, ?_, ?_⟩
      · simp [v8bitfield_dump_value_loop, hone, hl]
      · exact List.Forall₂.cons ⟨hone, hline⟩ hf

/-- Each line of a decode carries its own label and no other. -/
theorem val_names_lines (value : Nat) (ss : List v8_bitfield_spec_t) (lines : List (List Printf))
    (hf : List.Forall₂ (fun s l => v8bitfield_dump_value_one s value = some l
      ∧ one_line s.vb_name l) ss lines) :
    val_names lines.flatten = ss.map (fun s => s.vb_name) := by
  induction hf with
  | nil => rfl
  | cons h _ ih =>
    obtain ⟨_, body, last, rfl, _, _, hnames⟩ := h
    unfold val_names at ih hnames ⊢
    rw [List.flatten_cons, List.filterMap_append, ih, List.filterMap_cons, hnames]
    rfl

/-- On a line, the calls that end a line number one. -/
theorem one_line_count (name : String) (l : List Printf) (h : one_line name l) :
    (l.filter Printf.ends_line).length = 1 := by
  obtain ⟨body, last, rfl, hlast, hbody, _⟩ := h
  have h1 : (Printf.val_label name :: body).filter Printf.ends_line = [] := by
    rw [List.filter_eq_nil_iff]
    intro e he
    simp [hbody e he]
  rw [← List.cons_append, List.filter_append, h1]
  simp [hlast]

/-- The calls that end a line, counted over the lines of a decode. -/
theorem lines_count (value : Nat) (ss : List v8_bitfield_spec_t) (lines : List (List Printf))
    (hf : List.Forall₂ (fun s l => v8bitfield_dump_value_one s value = some l
      ∧ one_line s.vb_name l) ss lines) :
    (lines.flatten.filter Printf.ends_line).length = ss.length := by
  induction hf with
  | nil => rfl
  | cons h _ ih =>
    rw [List.flatten_cons, List.filter_append, List.length_append, ih,
      one_line_count _ _ h.2, List.length_cons, Nat.add_comm]

/-- The description of one spec: the header line, then one line per declared symbol. -/
theorem dumpcfg_one_eq (bp : v8_bitfield_spec_t) (ht : values_terminated bp.vb_values) :
    v8bitfield_dumpcfg_one bp = some
      (Printf.cfg_spec bp.vb_name bp.vb_off bp.vb_nbits (v8bitfield_type_label bp) ::
        (symbols bp.vb_values).map (fun s => Printf.cfg_value s.1 s.2)) := by
  simp [v8bitfield_dumpcfg_one, dumpcfg_one_loop_eq _ ht]

/-- The field loop of the description prints the descriptions of the declared specs, in declared
order. -/
theorem dumpcfg_loop_eq (ds : List (Option v8_bitfield_spec_t))
    (hterm : descs_terminated ds) (hok : ∀ s ∈ specs ds, values_terminated s.vb_values) :
    v8bitfield_dumpcfg_loop ds = some (((specs ds).map (fun s =>
      Printf.cfg_spec s.vb_name s.vb_off s.vb_nbits (v8bitfield_type_label s) ::
        (symbols s.vb_values).map (fun y => Printf.cfg_value y.1 y.2))).flatten) := by
  induction ds with
  | nil => simp [descs_terminated] at hterm
  | cons d rest ih =>
    rcases d with _ | bp
    · rfl
    · have hterm2 : descs_terminated rest := by
        unfold descs_terminated at hterm ⊢
        simpa using hterm
      have hok2 : ∀ s ∈ specs rest, values_terminated s.vb_values := fun s hs =>
        hok s (by simp [specs, hs])
      simp [v8bitfield_dumpcfg_loop, specs, dumpcfg_one_eq bp (hok bp (by simp [specs])),
        ih hterm2 hok2]

/-- The description of a list of specs announces each name once, in order. -/
theorem cfg_names_flatten (ss : List v8_bitfield_spec_t) :
    cfg_names ((ss.map (fun s =>
      Printf.cfg_spec s.vb_name s.vb_off s.vb_nbits (v8bitfield_type_label s) ::
        (symbols s.vb_values).map (fun y => Printf.cfg_value y.1 y.2))).flatten)
      = ss.map (fun s => s.vb_name) := by
  induction ss with
  | nil => rfl
  | cons s ss ih =>
    unfold cfg_names at ih ⊢
    rw [List.map_cons, List.flatten_cons, List.filterMap_append, ih, List.filterMap_cons,
      List.filterMap_map]
    simp [Function.comp_def]

/-! ## The input 0 -/

set_option maxRecDepth 100000 in
/-- C6, refuted as stated: for the command-line input 0 the PropertyAttributes line of the v0.12
layout is the label followed by the newline alone; the symbol NONE, declared as 0, is not
reported. -/
theorem attr_none_not_reported :
    v8bitfield_dump_value_one v8_012_property_attr (0 >>> 1)
      = some [Printf.val_label "PropertyAttributes", Printf.val_newline]
    ∧ (main (fun _ => (0, "")) ["v8bitfield", "0"]).map (fun o => stdout_text o.out)
      = some ("value 0x0 as PropertyDetails:\n"
          ++ "            PropertyType: NORMAL\n"
          ++ "      PropertyAttributes: \n"
          ++ "            DeletedField: \n"
          ++ "       DictionaryStorage: 0x0\n"
          ++ "          Representation: None\n"
          ++ "       DescriptorPointer: 0x0\n"
          ++ "              FieldIndex: 0x0\n") := by
  decide

/-- C6, amended: for the command-line input 0 decoded with the v0.12 PropertyDetails layout, the
PropertyAttributes field is empty: after the header and the PropertyType line the program prints
the label `PropertyAttributes` and a newline, and no call of the run prints a flag name, NONE
included. -/
theorem attr_empty_at_zero (strtoul : String → Nat × String) (prog arg : String)
    (h : strtoul arg = (0, "")) :
    ∃ post, main strtoul [prog, arg] = some ⟨0,
        [Printf.val_head 0 "PropertyDetails", Printf.val_label "PropertyType",
          Printf.val_enum "NORMAL"]
        ++ [Printf.val_label "PropertyAttributes", Printf.val_newline] ++ post, none⟩
      ∧ (∀ name, Printf.val_flag name ∉ post)
      ∧ stdout_text [Printf.val_label "PropertyAttributes", Printf.val_newline]
          = "      PropertyAttributes: \n" := by
  have hd : v8bitfield_dump_value v8_012_property_details (0 >>> 1) = some
      ([Printf.val_head 0 "PropertyDetails", Printf.val_label "PropertyType",
          Printf.val_enum "NORMAL"]
        ++ [Printf.val_label "PropertyAttributes", Printf.val_newline]
        ++ [Printf.val_label "DeletedField", Printf.val_newline,
          Printf.val_label "DictionaryStorage", Printf.val_raw 0,
          Printf.val_label "Representation", Printf.val_enum "None",
          Printf.val_label "DescriptorPointer", Printf.val_raw 0,
          Printf.val_label "FieldIndex", Printf.val_raw 0]) := by decide
  refine ⟨[Printf.val_label "DeletedField", Printf.val_newline,
    Printf.val_label "DictionaryStorage", Printf.val_raw 0,
    Printf.val_label "Representation", Printf.val_enum "None",
    Printf.val_label "DescriptorPointer", Printf.val_raw 0,
    Printf.val_label "FieldIndex", Printf.val_raw 0], ?_, ?_, by decide⟩
  · rw [main_plain strtoul prog arg 0 h, hd]
    rfl
  · intro name
    simp

/-- Witness of C6 as amended: the argument `0`, read by a `strtoul` that returns 0 and consumes
it whole. -/
theorem attr_empty_at_zero_witness :
    (fun _ => ((0 : Nat), "")) "0" = (0, "")
    ∧ ∃ post, main (fun _ => (0, "")) ["v8bitfield", "0"] = some ⟨0,
        [Printf.val_head 0 "PropertyDetails", Printf.val_label "PropertyType",
          Printf.val_enum "NORMAL"]
        ++ [Printf.val_label "PropertyAttributes", Printf.val_newline] ++ post, none⟩
      ∧ (∀ name, Printf.val_flag name ∉ post)
      ∧ stdout_text [Printf.val_label "PropertyAttributes", Printf.val_newline]
          = "      PropertyAttributes: \n" :=
  ⟨rfl, attr_empty_at_zero (fun _ => (0, "")) "v8bitfield" "0" rfl⟩

set_option maxRecDepth 100000 in
/-- C7: for the command-line input 0 decoded with the v0.12 PropertyDetails layout, the word
decoded is 0, PropertyType prints `NORMAL`, DeletedField prints no symbol name, Representation
prints `None`, and the RAW fields DictionaryStorage, DescriptorPointer and FieldIndex print
`0x0`; with `-c` the same lines follow the description. -/
theorem decode_of_zero (strtoul : String → Nat × String) (prog arg : String)
    (h : strtoul arg = (0, "")) :
    main strtoul [prog, arg] = some ⟨0,
        [Printf.val_head 0 "PropertyDetails",
          Printf.val_label "PropertyType", Printf.val_enum "NORMAL",
          Printf.val_label "PropertyAttributes", Printf.val_newline,
          Printf.val_label "DeletedField", Printf.val_newline,
          Printf.val_label "DictionaryStorage", Printf.val_raw 0,
          Printf.val_label "Representation", Printf.val_enum "None",
          Printf.val_label "DescriptorPointer", Printf.val_raw 0,
          Printf.val_label "FieldIndex", Printf.val_raw 0], none⟩
    ∧ (∃ cfg, v8bitfield_dumpcfg v8_012_property_details = some cfg
        ∧ main strtoul [prog, "-c", arg] = some ⟨0, cfg ++
          [Printf.val_head 0 "PropertyDetails",
            Printf.val_label "PropertyType", Printf.val_enum "NORMAL",
            Printf.val_label "PropertyAttributes", Printf.val_newline,
            Printf.val_label "DeletedField", Printf.val_newline,
            Printf.val_label "DictionaryStorage", Printf.val_raw 0,
            Printf.val_label "Representation", Printf.val_enum "None",
            Printf.val_label "DescriptorPointer", Printf.val_raw 0,
            Printf.val_label "FieldIndex", Printf.val_raw 0], none⟩)
    ∧ stdout_text [Printf.val_head 0 "PropertyDetails",
          Printf.val_label "PropertyType", Printf.val_enum "NORMAL",
          Printf.val_label "PropertyAttributes", Printf.val_newline,
          Printf.val_label "DeletedField", Printf.val_newline,
          Printf.val_label "DictionaryStorage", Printf.val_raw 0,
          Printf.val_label "Representation", Printf.val_enum "None",
          Printf.val_label "DescriptorPointer", Printf.val_raw 0,
          Printf.val_label "FieldIndex", Printf.val_raw 0]
      = "value 0x0 as PropertyDetails:\n"
          ++ "            PropertyType: NORMAL\n"
          ++ "      PropertyAttributes: \n"
          ++ "            DeletedField: \n"
          ++ "       DictionaryStorage: 0x0\n"
          ++ "          Representation: None\n"
          ++ "       DescriptorPointer: 0x0\n"
          ++ "              FieldIndex: 0x0\n" := by
  have hd : v8bitfield_dump_value v8_012_property_details (0 >>> 1) = some
      [Printf.val_head 0 "PropertyDetails",
        Printf.val_label "PropertyType", Printf.val_enum "NORMAL",
        Printf.val_label "PropertyAttributes", Printf.val_newline,
        Printf.val_label "DeletedField", Printf.val_newline,
        Printf.val_label "DictionaryStorage", Printf.val_raw 0,
        Printf.val_label "Representation", Printf.val_enum "None",
        Printf.val_label "DescriptorPointer", Printf.val_raw 0,
        Printf.val_label "FieldIndex", Printf.val_raw 0] := by decide
  obtain ⟨cfg, hcfg⟩ : ∃ cfg, v8bitfield_dumpcfg v8_012_property_details = some cfg :=
    Option.isSome_iff_exists.1 (by decide)
  refine ⟨?_, ⟨cfg, hcfg, ?_⟩, by decide⟩
  · rw [main_plain strtoul prog arg 0 h, hd]
    rfl
  · rw [main_opt_c strtoul prog arg 0 h, hd, hcfg]
    rfl

/-- Witness of C7: the argument `0`, read by a `strtoul` that returns 0 and consumes it whole. -/
theorem decode_of_zero_witness :
    (fun _ => ((0 : Nat), "")) "0" = (0, "")
    ∧ main (fun _ => (0, "")) ["v8bitfield", "0"] = some ⟨0,
        [Printf.val_head 0 "PropertyDetails",
          Printf.val_label "PropertyType", Printf.val_enum "NORMAL",
          Printf.val_label "PropertyAttributes", Printf.val_newline,
          Printf.val_label "DeletedField", Printf.val_newline,
          Printf.val_label "DictionaryStorage", Printf.val_raw 0,
          Printf.val_label "Representation", Printf.val_enum "None",
          Printf.val_label "DescriptorPointer", Printf.val_raw 0,
          Printf.val_label "FieldIndex", Printf.val_raw 0], none⟩ :=
  ⟨rfl, (decode_of_zero (fun _ => (0, "")) "v8bitfield" "0" rfl).1⟩

/-! ## Newline bytes of the output -/

theorem newlines_append (a b : String) : newlines (a ++ b) = newlines a + newlines b := by
  simp [newlines, String.data_append, List.count_append]

theorem digitChar_ne_newline (k : Nat) (h : k < 16) : Nat.digitChar k ≠ '\n' := by
  interval_cases k <;> decide

theorem toDigitsCore_count (fuel n : Nat) (ds : List Char) :
    (Nat.toDigitsCore 16 fuel n ds).count '\n' = ds.count '\n' := by
  induction fuel generalizing n ds with
  | zero => rfl
  | succ fuel ih =>
    have hd : (Nat.digitChar (n % 16) :: ds).count '\n' = ds.count '\n' :=
      List.count_cons_of_ne (digitChar_ne_newline _ (Nat.mod_lt _ (by decide))).symm ds
    show List.count '\n' (if n / 16 = 0 then Nat.digitChar (n % 16) :: ds
      else Nat.toDigitsCore 16 fuel (n / 16) (Nat.digitChar (n % 16) :: ds)) = _
    by_cases h : n / 16 = 0
    · rw [if_pos h, hd]
    · rw [if_neg h, ih, hd]

/-- Hexadecimal digits hold no newline. -/
theorem newlines_fmt_hex (n : Nat) : newlines (fmt_hex n) = 0 := by
  simp [newlines, fmt_hex, Nat.toDigits, toDigitsCore_count]

/-- Padding with blanks adds no newline. -/
theorem newlines_fmt_s20 (s : String) : newlines (fmt_s20 s) = newlines s := by
  unfold fmt_s20
  rw [newlines_append]
  simp [newlines, List.count_replicate]

theorem stdout_text_append (a b : List Printf) :
    stdout_text (a ++ b) = stdout_text a ++ stdout_text b := by
  induction a with
  | nil => simp [stdout_text]
  | cons e a ih => simp [stdout_text, ih, String.append_assoc]

theorem stdout_text_cons (e : Printf) (t : List Printf) :
    stdout_text (e :: t) = e.render ++ stdout_text t := rfl

theorem newlines_val_head (value : Nat) (name : String) :
    newlines (Printf.val_head value name).render = newlines name + 1 := by
  show newlines ("value 0x" ++ fmt_hex value ++ " as " ++ name ++ ":\n") = _
  rw [newlines_append, newlines_append, newlines_append, newlines_append, newlines_fmt_hex]
  have h1 : newlines "value 0x" = 0 := by decide
  have h2 : newlines " as " = 0 := by decide
  have h3 : newlines ":\n" = 1 := by decide
  omega

theorem newlines_val_label (name : String) :
    newlines (Printf.val_label name).render = newlines name := by
  show newlines ("    " ++ fmt_s20 name ++ ": ") = _
  rw [newlines_append, newlines_append, newlines_fmt_s20]
  have h1 : newlines "    " = 0 := by decide
  have h2 : newlines ": " = 0 := by decide
  omega

theorem newlines_val_raw (decoded : Nat) :
    newlines (Printf.val_raw decoded).render = 1 := by
  show newlines ("0x" ++ fmt_hex decoded ++ "\n") = _
  rw [newlines_append, newlines_append, newlines_fmt_hex]
  have h1 : newlines "0x" = 0 := by decide
  have h2 : newlines "\n" = 1 := by decide
  omega

theorem newlines_val_enum (name : String) :
    newlines (Printf.val_enum name).render = newlines name + 1 := by
  show newlines (name ++ "\n") = _
  rw [newlines_append]
  have h2 : newlines "\n" = 1 := by decide
  omega

theorem newlines_val_flag (name : String) :
    newlines (Printf.val_flag name).render = newlines name := by
  show newlines (name ++ " ") = _
  rw [newlines_append]
  have h2 : newlines " " = 0 := by decide
  omega

/-- A run of flag names without newline, closed by the newline call, holds one newline byte. -/
theorem newlines_flags (l : List (String × Int)) (h : ∀ y ∈ l, newlines y.1 = 0) :
    newlines (stdout_text (l.map (fun s => Printf.val_flag s.1) ++ [Printf.val_newline])) = 1 := by
  induction l with
  | nil => decide
  | cons a l ih =>
    rw [List.map_cons, List.cons_append, stdout_text_cons, newlines_append, newlines_val_flag,
      h a (List.mem_cons_self a l), ih (fun y hy => h y (List.mem_cons_of_mem a hy))]

/-- With names free of newlines, the line of a well-formed spec holds one newline byte. -/
theorem dump_value_one_newlines (vp : v8_bitfield_spec_t) (value : Nat) (h : spec_ok vp)
    (hname : newlines vp.vb_name = 0) (hsyms : ∀ y ∈ symbols vp.vb_values, newlines y.1 = 0) :
    ∃ l, v8bitfield_dump_value_one vp value = some l ∧ newlines (stdout_text l) = 1 := by
  obtain ⟨hn, ho, ht, hty | hty | hty⟩ := h
  · refine ⟨_, dump_value_one_raw vp value hty ho hn, ?_⟩
    rw [stdout_text_cons, stdout_text_cons, newlines_append, newlines_append, newlines_val_label,
      newlines_val_raw, hname]
    rfl
  · refine ⟨_, dump_value_one_enum vp value hty ho hn ht, ?_⟩
    rw [stdout_text_cons, stdout_text_cons, newlines_append, newlines_append, newlines_val_label,
      hname]
    cases hfind : (symbols vp.vb_values).find?
        (fun s => ulong_of_int s.2 == (value >>> vp.vb_off) &&& (2 ^ vp.vb_nbits - 1)) with
    | none => decide
    | some y =>
      have hy := hsyms y (List.mem_of_find?_eq_some hfind)
      show 0 + (newlines (Printf.val_enum y.1).render + newlines (stdout_text [])) = 1
      rw [newlines_val_enum, hy]
      rfl
  · refine ⟨_, dump_value_one_flags vp value hty ho hn ht, ?_⟩
    rw [stdout_text_cons, newlines_append, newlines_val_label, hname, newlines_flags]
    intro y hy
    exact hsyms y (List.mem_filter.1 hy).1

/-- With names free of newlines, the field loop of the decode writes one newline byte for each
declared spec. -/
theorem dump_value_loop_newlines (value : Nat) (ds : List (Option v8_bitfield_spec_t))
    (hterm : descs_terminated ds) (hok : ∀ s ∈ specs ds, spec_ok s)
    (hnames : ∀ s ∈ specs ds, newlines s.vb_name = 0
      ∧ ∀ y ∈ symbols s.vb_values, newlines y.1 = 0) :
    ∃ t, v8bitfield_dump_value_loop value ds = some t
      ∧ newlines (stdout_text t) = (specs ds).length := by
  induction ds with
  | nil => simp [descs_terminated] at hterm
  | cons d rest ih =>
    rcases d with _ | bp
    · exact ⟨[], rfl, rfl⟩
    · have hterm2 : descs_terminated rest := by
        unfold descs_terminated at hterm ⊢
        simpa using hterm
      have hmem : ∀ s ∈ specs rest, s ∈ specs (some bp :: rest) := fun s hs => by
        simp [specs, hs]
      obtain ⟨t, ht, hc⟩ := ih hterm2 (fun s hs => hok s (hmem s hs))
        (fun s hs => hnames s (hmem s hs))
      have hbp : bp ∈ specs (some bp :: rest) := by simp [specs]
      obtain ⟨l, hl, hlc⟩ := dump_value_one_newlines bp value (hok bp hbp) (hnames bp hbp).1
        (hnames bp hbp).2
      refine ⟨l ++ t, ?_, ?_⟩
      · simp [v8bitfield_dump_value_loop, hl, ht]
      · rw [stdout_text_append, newlines_append, hlc, hc]
        simp [specs, Nat.add_comm]

/-- With names free of newlines, the decode of a well-formed layout writes one newline byte for
the header and one for each declared spec. -/
theorem dump_value_newlines (vp : v8_bitfield_value_t) (value : Nat) (h : layout_ok vp)
    (hnames : names_single_line vp) :
    ∃ dump, v8bitfield_dump_value vp value = some dump
      ∧ newlines (stdout_text dump) = (specs vp.vv_descs).length + 1 := by
  obtain ⟨t, ht, hc⟩ := dump_value_loop_newlines value vp.vv_descs h.1 h.2 hnames.2
  refine ⟨Printf.val_head value vp.vv_name :: t, ?_, ?_⟩
  · simp [v8bitfield_dump_value, ht]
  · rw [stdout_text_cons, newlines_append, newlines_val_head, hc, hnames.1]
    omega

/-! ## Description and decode of a layout -/

/-- The decode of a well-formed layout: the header, then the lines of the declared specs. -/
theorem dump_value_lines (vp : v8_bitfield_value_t) (value : Nat) (h : layout_ok vp) :
    ∃ lines : List (List Printf),
      v8bitfield_dump_value vp value = some (Printf.val_head value vp.vv_name :: lines.flatten)
      ∧ List.Forall₂ (fun s l => v8bitfield_dump_value_one s value = some l
          ∧ one_line s.vb_name l) (specs vp.vv_descs) lines
      ∧ lines.length = (specs vp.vv_descs).length
      ∧ ((Printf.val_head value vp.vv_name :: lines.flatten).filter Printf.ends_line).length
          = (specs vp.vv_descs).length + 1
      ∧ (names_single_line vp →
          newlines (stdout_text (Printf.val_head value vp.vv_name :: lines.flatten))
            = (specs vp.vv_descs).length + 1) := by
  obtain ⟨lines, hl, hf⟩ := dump_value_loop_lines value vp.vv_descs h.1 h.2
  have hdump : v8bitfield_dump_value vp value
      = some (Printf.val_head value vp.vv_name :: lines.flatten) := by
    simp [v8bitfield_dump_value, hl]
  refine ⟨lines, hdump, hf, hf.length_eq.symm, ?_, ?_⟩
  · have hhead : (Printf.val_head value vp.vv_name).ends_line = true := by
      rw [ends_line_cases]
    rw [List.filter_cons_of_pos hhead, List.length_cons, lines_count value _ _ hf]
  · intro hnames
    obtain ⟨dump, hd, hc⟩ := dump_value_newlines vp value h hnames
    rw [hdump] at hd
    injection hd with hd
    rw [hd]
    exact hc

/-- C8: for every well-formed layout (sentinel-terminated, each spec decodable) and every word,
`v8bitfield_dumpcfg` and `v8bitfield_dump_value` both return, and the field names announced by
the description, one per spec header line, are, element for element and in the same order, the
field names labelling the lines of the decode; both are the names of the declared specs in
declared order. -/
theorem description_decode_same_names (vp : v8_bitfield_value_t) (value : Nat)
    (h : layout_ok vp) :
    ∃ cfg dump,
      v8bitfield_dumpcfg vp = some cfg
      ∧ v8bitfield_dump_value vp value = some dump
      ∧ cfg_names cfg = val_names dump
      ∧ cfg_names cfg = (specs vp.vv_descs).map (fun s => s.vb_name)
      ∧ val_names dump = (specs vp.vv_descs).map (fun s => s.vb_name) := by
  obtain ⟨lines, hd, hf, _, _, _⟩ := dump_value_lines vp value h
  have hcfg := dumpcfg_loop_eq vp.vv_descs h.1 (fun s hs => (h.2 s hs).2.2.1)
  have hc : cfg_names (Printf.cfg_head vp.vv_name :: ((specs vp.vv_descs).map (fun s =>
      Printf.cfg_spec s.vb_name s.vb_off s.vb_nbits (v8bitfield_type_label s) ::
        (symbols s.vb_values).map (fun y => Printf.cfg_value y.1 y.2))).flatten)
      = (specs vp.vv_descs).map (fun s => s.vb_name) := by
    have := cfg_names_flatten (specs vp.vv_descs)
    unfold cfg_names at this ⊢
    rw [List.filterMap_cons, this]
  have hv : val_names (Printf.val_head value vp.vv_name :: lines.flatten)
      = (specs vp.vv_descs).map (fun s => s.vb_name) := by
    have := val_names_lines value _ _ hf
    unfold val_names at this ⊢
    rw [List.filterMap_cons, this]
  refine ⟨_, _, ?_, hd, ?_, hc, hv⟩
  · simp [v8bitfield_dumpcfg, hcfg]
  · rw [hc, hv]

/-- Witness of C8: the v0.12 PropertyDetails layout and the word `0x2a`. -/
theorem description_decode_same_names_witness :
    layout_ok v8_012_property_details
    ∧ ∃ cfg dump,
      v8bitfield_dumpcfg v8_012_property_details = some cfg
      ∧ v8bitfield_dump_value v8_012_property_details 0x2a = some dump
      ∧ cfg_names cfg = val_names dump
      ∧ cfg_names cfg = (specs v8_012_property_details.vv_descs).map (fun s => s.vb_name)
      ∧ val_names dump = (specs v8_012_property_details.vv_descs).map (fun s => s.vb_name) :=
  ⟨by decide, description_decode_same_names v8_012_property_details 0x2a (by decide)⟩

/-- C9: for every well-formed layout with `n` declared specs and every word,
`v8bitfield_dump_value` prints the header `value 0x<word in lowercase hex> as <layout name>:`
and then, for each declared spec in declared order, the one line `v8bitfield_dump_value_one`
prints for it: the label, which is the name of the spec right-aligned in 20 columns, first, and
the only call that ends a line last.  That is `n + 1` line-ending calls and, when no name holds a
newline, `n + 1` newline bytes.  The v0.12 layout is well formed, its names hold no newline and it
declares 7 specs, so for every word its decode is the header and 7 field lines. -/
theorem decode_shape (vp : v8_bitfield_value_t) (value : Nat) (h : layout_ok vp) :
    (∃ lines : List (List Printf),
      v8bitfield_dump_value vp value = some (Printf.val_head value vp.vv_name :: lines.flatten)
      ∧ List.Forall₂ (fun s l => v8bitfield_dump_value_one s value = some l
          ∧ one_line s.vb_name l) (specs vp.vv_descs) lines
      ∧ lines.length = (specs vp.vv_descs).length
      ∧ ((Printf.val_head value vp.vv_name :: lines.flatten).filter Printf.ends_line).length
          = (specs vp.vv_descs).length + 1
      ∧ (names_single_line vp →
          newlines (stdout_text (Printf.val_head value vp.vv_name :: lines.flatten))
            = (specs vp.vv_descs).length + 1))
    ∧ (Printf.val_head value vp.vv_name).render
        = "value 0x" ++ String.mk (Nat.toDigits 16 value) ++ " as " ++ vp.vv_name ++ ":\n"
    ∧ (∀ name, (Printf.val_label name).render
        = "    " ++ (String.mk (List.replicate (20 - name.utf8ByteSize) ' ') ++ name) ++ ": ")
    ∧ (∀ word, ∃ lines : List (List Printf),
        v8bitfield_dump_value v8_012_property_details word
          = some (Printf.val_head word "PropertyDetails" :: lines.flatten)
        ∧ List.Forall₂ (fun s l => v8bitfield_dump_value_one s word = some l
            ∧ one_line s.vb_name l)
          [v8_012_property_type, v8_012_property_attr, v8_012_property_deleted,
            v8_012_property_dictstorage, v8_012_property_repr, v8_012_property_descptr,
            v8_012_property_fieldindex] lines
        ∧ lines.length = 7
        ∧ ((Printf.val_head word "PropertyDetails" :: lines.flatten).filter
            Printf.ends_line).length = 8
        ∧ newlines (stdout_text (Printf.val_head word "PropertyDetails" :: lines.flatten))
            = 8) := by
  refine ⟨dump_value_lines vp value h, rfl, fun _ => rfl, fun word => ?_⟩
  obtain ⟨lines, h1, h2, h3, h4, h5⟩ :=
    dump_value_lines v8_012_property_details word (by decide)
  exact ⟨lines, h1, h2, h3, h4, h5 (by decide)⟩

/-- Witness of C9: the v0.10 PropertyDetails layout, of 6 declared specs, and the word `0x7f`. -/
theorem decode_shape_witness :
    layout_ok v8_010_property_details
    ∧ ∃ lines : List (List Printf),
      v8bitfield_dump_value v8_010_property_details 0x7f
        = some (Printf.val_head 0x7f "PropertyDetails" :: lines.flatten)
      ∧ List.Forall₂ (fun s l => v8bitfield_dump_value_one s 0x7f = some l
          ∧ one_line s.vb_name l) (specs v8_010_property_details.vv_descs) lines
      ∧ lines.length = 6
      ∧ ((Printf.val_head 0x7f "PropertyDetails" :: lines.flatten).filter
          Printf.ends_line).length = 6 + 1
      ∧ (names_single_line v8_010_property_details →
          newlines (stdout_text (Printf.val_head 0x7f "PropertyDetails" :: lines.flatten))
            = 6 + 1) :=
  ⟨by decide, (decode_shape v8_010_property_details 0x7f (by decide)).1⟩

/-- C10: for every spec with a terminated symbol table, `v8bitfield_dumpcfg_one` prints one line
with the field name, the starting bit offset, the bit width and the mode label (`raw value` for
RAW, `exclusive values` for ENUM, `overlapping flags` for FLAGS), then exactly one line per
declared symbol, in declared order, with the symbol name and its value in hexadecimal; a spec
with no declared symbol, as every RAW spec of the tables, prints the first line only.  The
function takes the spec alone: no word enters the output. -/
theorem description_of_one_spec (bp : v8_bitfield_spec_t)
    (ht : values_terminated bp.vb_values) :
    v8bitfield_dumpcfg_one bp = some
      (Printf.cfg_spec bp.vb_name bp.vb_off bp.vb_nbits (v8bitfield_type_label bp) ::
        (symbols bp.vb_values).map (fun s => Printf.cfg_value s.1 s.2))
    ∧ (bp.vb_type = V8_BITFIELD_RAW → v8bitfield_type_label bp = "raw value")
    ∧ (bp.vb_type = V8_BITFIELD_ENUM → v8bitfield_type_label bp = "exclusive values")
    ∧ (bp.vb_type = V8_BITFIELD_FLAGS → v8bitfield_type_label bp = "overlapping flags")
    ∧ (symbols bp.vb_values = [] → v8bitfield_dumpcfg_one bp = some
        [Printf.cfg_spec bp.vb_name bp.vb_off bp.vb_nbits (v8bitfield_type_label bp)])
    ∧ (∀ t, v8bitfield_dumpcfg_one bp = some t → ∀ e ∈ t, e.ends_line = true)
    ∧ (∀ name off nbits label, (Printf.cfg_spec name off nbits label).render
        = "    " ++ name ++ ": from bit " ++ fmt_ld off ++ " for " ++ fmt_ld nbits ++ " bits ("
          ++ label ++ ")\n")
    ∧ (∀ name flags, (Printf.cfg_value name flags).render
        = "    " ++ fmt_s20 name ++ " = 0x" ++ String.mk (Nat.toDigits 16 (flags % 2 ^ 32).toNat)
          ++ "\n")
    ∧ (∀ n, n < 2 ^ 63 → fmt_ld n = toString n) := by
  have hmain := dumpcfg_one_eq bp ht
  refine ⟨hmain, ?_, ?_, ?_, ?_, ?_, fun _ _ _ _ => rfl, fun _ _ => rfl, ?_⟩
  · intro hty
    simp [v8bitfield_type_label, hty]
  · intro hty
    simp [v8bitfield_type_label, hty]
  · intro hty
    simp [v8bitfield_type_label, hty]
  · intro hnil
    rw [hmain, hnil]
    rfl
  · intro t htt e he
    rw [hmain] at htt
    injection htt with htt
    subst htt
    rcases List.mem_cons.1 he with rfl | he
    · rw [ends_line_cases]
    · obtain ⟨y, _, rfl⟩ := List.mem_map.1 he
      rw [ends_line_cases]
  · intro n hn
    have h64 : n % 2 ^ 64 = n := Nat.mod_eq_of_lt (lt_trans hn (by decide))
    unfold fmt_ld
    rw [h64, if_pos hn]

/-- Witness of C10: the description of the v0.12 DeletedField spec. -/
theorem description_of_one_spec_witness :
    values_terminated v8_012_property_deleted.vb_values
    ∧ v8bitfield_dumpcfg_one v8_012_property_deleted = some
      [Printf.cfg_spec "DeletedField" 6 1 "overlapping flags", Printf.cfg_value "DELETED" 1] :=
  ⟨by decide, (description_of_one_spec v8_012_property_deleted (by decide)).1⟩

/-! ## What `strtoul` reads to the end -/

theorem not_digit_of_isspace (base : Nat) (c : Char) (h : isspace c = true) :
    is_digit base c = false := by
  simp only [isspace, Bool.or_eq_true, decide_eq_true_eq] at h
  rcases h with ((((rfl | rfl) | rfl) | rfl) | rfl) | rfl <;> rfl

theorem not_digit_plus (base : Nat) : is_digit base '+' = false := rfl
theorem not_digit_minus (base : Nat) : is_digit base '-' = false := rfl
theorem not_octal_x : is_digit 8 'x' = false := by decide
theorem not_octal_X : is_digit 8 'X' = false := by decide

/-- The digit loop leaves nothing exactly when every character is a digit of the base. -/
theorem strtoul_digits_whole (base : Nat) (s : List Char) (acc : Nat) :
    (strtoul_digits base s acc).2 = [] ↔ ∀ c ∈ s, is_digit base c = true := by
  induction s generalizing acc with
  | nil => simp [strtoul_digits]
  | cons c cs ih =>
    unfold strtoul_digits
    cases hd : digit_value c with
    | none => simp [is_digit, hd]
    | some d =>
      by_cases hlt : d < base
      · simp [is_digit, hd, hlt, ih]
      · simp [is_digit, hd, hlt]

theorem strtoul_hex_iff (s : List Char) :
    strtoul_hex s = true ↔ ∃ x h r, s = '0' :: x :: h :: r ∧ (x = 'x' ∨ x = 'X')
      ∧ is_digit 16 h = true := by
  unfold strtoul_hex
  split
  · rename_i x h r
    constructor
    · intro hx
      simp only [Bool.and_eq_true, Bool.or_eq_true, decide_eq_true_eq] at hx
      exact ⟨x, h, r, rfl, hx.1, hx.2⟩
    · rintro ⟨x1, h1, r1, heq, hx, hh⟩
      injection heq with _ heq
      injection heq with hx1 heq
      injection heq with hh1 _
      subst hx1 hh1
      simp only [Bool.and_eq_true, Bool.or_eq_true, decide_eq_true_eq]
      exact ⟨hx, hh⟩
  · rename_i hne
    simp only [Bool.false_eq_true, false_iff]
    rintro ⟨x, h, r, rfl, _⟩
    exact hne x h r rfl

/-- The number is read to the end exactly when the text is an integer literal. -/
theorem strtoul_number_whole (s : List Char) :
    (∃ n, strtoul_number s = some (n, [])) ↔ is_literal s := by
  unfold strtoul_number is_literal
  by_cases hhex : strtoul_hex s = true
  · obtain ⟨x, h, r, rfl, hx, hh⟩ := (strtoul_hex_iff s).1 hhex
    simp only [hhex, if_true, List.drop_succ_cons, List.drop_zero, hh]
    constructor
    · rintro ⟨n, hn⟩
      left
      refine ⟨x, h :: r, rfl, hx, by simp, ?_⟩
      apply (strtoul_digits_whole 16 (h :: r) 0).1
      injection hn with hn
      rw [hn]
    · intro hlit
      have hall : ∀ c ∈ h :: r, is_digit 16 c = true := by
        rcases hlit with ⟨x1, ds, heq, _, _, hds⟩ | ⟨ds, heq, hds⟩ | ⟨_, hhead, _⟩
        · injection heq with _ heq
          injection heq with _ heq
          rw [heq]
          exact hds
        · injection heq with _ heq
          have hxo := hds x (by rw [← heq]; exact List.mem_cons_self _ _)
          rcases hx with rfl | rfl
          · rw [not_octal_x] at hxo
            exact absurd hxo (by decide)
          · rw [not_octal_X] at hxo
            exact absurd hxo (by decide)
        · exact absurd rfl hhead
      exact ⟨(strtoul_digits 16 (h :: r) 0).1, by
        congr 1
        exact Prod.ext rfl ((strtoul_digits_whole 16 (h :: r) 0).2 hall)⟩
  · have hhex2 : strtoul_hex s = false := by simpa using hhex
    simp only [hhex2, Bool.false_eq_true, if_false]
    cases s with
    | nil =>
      simp
    | cons c cs =>
      by_cases hc : c = '0'
      · subst hc
        simp only [List.head?_cons, if_true]
        have h0 : is_digit 8 '0' = true := by decide
        simp only [h0, if_true]
        constructor
        · rintro ⟨n, hn⟩
          right
          left
          refine ⟨cs, rfl, fun c hc => ?_⟩
          apply (strtoul_digits_whole 8 ('0' :: cs) 0).1 _ c (List.mem_cons_of_mem _ hc)
          injection hn with hn
          rw [hn]
        · intro hlit
          have hall : ∀ c ∈ '0' :: cs, is_digit 8 c = true := by
            rcases hlit with ⟨x1, ds, heq, hx1, hne, hds⟩ | ⟨ds, heq, hds⟩ | ⟨_, hhead, _⟩
            · exfalso
              injection heq with _ heq
              cases ds with
              | nil => exact hne rfl
              | cons h r =>
                apply hhex
                exact (strtoul_hex_iff _).2 ⟨x1, h, r, by rw [heq], hx1,
                  hds h (List.mem_cons_self _ _)⟩
            · injection heq with _ heq
              intro c hc
              rcases List.mem_cons.1 hc with rfl | hc
              · exact h0
              · exact hds c (by rw [← heq]; exact hc)
            · exact absurd rfl hhead
          exact ⟨(strtoul_digits 8 ('0' :: cs) 0).1, by
            congr 1
            exact Prod.ext rfl ((strtoul_digits_whole 8 ('0' :: cs) 0).2 hall)⟩
      · have hhead : ¬ (some c = some '0') := fun e => hc (Option.some.inj e)
        simp only [List.head?_cons, hhead, if_false]
        constructor
        · rintro ⟨n, hn⟩
          right
          right
          by_cases hd : is_digit 10 c = true
          · simp only [hd, if_true] at hn
            refine ⟨by simp, hhead, ?_⟩
            apply (strtoul_digits_whole 10 (c :: cs) 0).1
            injection hn with hn
            rw [hn]
          · simp [hd] at hn
        · intro hlit
          have hall : ∀ y ∈ c :: cs, is_digit 10 y = true := by
            rcases hlit with ⟨x1, ds, heq, _⟩ | ⟨ds, heq, _⟩ | ⟨_, _, hds⟩
            · injection heq with h1 _
              exact absurd h1 hc
            · injection heq with h1 _
              exact absurd h1 hc
            · exact hds
          have hd : is_digit 10 c = true := hall c (List.mem_cons_self _ _)
          simp only [hd, if_true]
          exact ⟨(strtoul_digits 10 (c :: cs) 0).1, by
            congr 1
            exact Prod.ext rfl ((strtoul_digits_whole 10 (c :: cs) 0).2 hall)⟩

/-- An integer literal starts with a character that is a digit of some base, so neither white
space nor a sign. -/
theorem literal_head (body : List Char) (h : is_literal body) :
    ∃ c cs, body = c :: cs ∧ isspace c = false ∧ c ≠ '+' ∧ c ≠ '-' := by
  have key : ∀ (base : Nat) (c : Char), is_digit base c = true →
      isspace c = false ∧ c ≠ '+' ∧ c ≠ '-' := by
    intro base c hc
    refine ⟨?_, ?_, ?_⟩
    · cases hs : isspace c with
      | false => rfl
      | true =>
        rw [not_digit_of_isspace base c hs] at hc
        exact absurd hc (by decide)
    · rintro rfl
      rw [not_digit_plus] at hc
      exact absurd hc (by decide)
    · rintro rfl
      rw [not_digit_minus] at hc
      exact absurd hc (by decide)
  rcases h with ⟨x, ds, rfl, _⟩ | ⟨ds, rfl, _⟩ | ⟨hne, _, hds⟩
  · exact ⟨'0', _, rfl, key 8 '0' (by decide)⟩
  · exact ⟨'0', _, rfl, key 8 '0' (by decide)⟩
  · cases body with
    | nil => exact absurd rfl hne
    | cons c cs => exact ⟨c, cs, rfl, key 10 c (hds c (List.mem_cons_self _ _))⟩

theorem dropWhile_isspace_append (ws : List Char) (c : Char) (cs : List Char)
    (hws : ∀ y ∈ ws, isspace y = true) (hc : isspace c = false) :
    (ws ++ c :: cs).dropWhile isspace = c :: cs := by
  induction ws with
  | nil =>
    rw [List.nil_append, List.dropWhile_cons_of_neg (by simp [hc])]
  | cons w ws ih =>
    rw [List.cons_append, List.dropWhile_cons_of_pos (hws w (List.mem_cons_self _ _))]
    exact ih (fun y hy => hws y (List.mem_cons_of_mem _ hy))

theorem takeWhile_isspace (l : List Char) : ∀ y ∈ l.takeWhile isspace, isspace y = true :=
  fun _ hy => (List.mem_takeWhile_imp hy)

/-- The result of `strtoul` once the white space is skipped and the sign removed. -/
theorem strtoul_eq (nptr : String) (negative : Bool) (body : List Char)
    (hneg : negative = decide ((nptr.data.dropWhile isspace).head? = some '-'))
    (hbody : body = if (nptr.data.dropWhile isspace).head? = some '-'
        ∨ (nptr.data.dropWhile isspace).head? = some '+'
      then (nptr.data.dropWhile isspace).tail else nptr.data.dropWhile isspace) :
    strtoul nptr = match strtoul_number body with
      | none => (0, nptr)
      | some (n, rest) =>
        (if n > ULONG_MAX then ULONG_MAX else if negative then (2 ^ 64 - n) % 2 ^ 64 else n,
          String.mk rest) := by
  subst hneg hbody
  unfold strtoul
  simp only [decide_eq_true_eq]

/-- The C library reads a string to its end exactly when the string is empty or an integer
literal after optional white space and an optional sign. -/
theorem strtoul_reads_whole_iff (nptr : String) :
    (strtoul nptr).2 = "" ↔ nptr = "" ∨ is_signed_literal nptr.data := by
  constructor
  · intro h
    rw [strtoul_eq nptr _ _ rfl rfl] at h
    have hsplit : nptr.data = nptr.data.takeWhile isspace ++ nptr.data.dropWhile isspace :=
      (List.takeWhile_append_dropWhile isspace nptr.data).symm
    generalize nptr.data.dropWhile isspace = t at h hsplit
    split at h
    · left
      exact h
    · rename_i n rest hnum
      right
      have hrest : rest = [] := by
        have := congrArg String.data h
        simpa using this
      subst hrest
      have hlit := (strtoul_number_whole _).1 ⟨n, hnum⟩
      cases t with
      | nil =>
        simp [strtoul_number, strtoul_hex] at hnum
      | cons c cs =>
        by_cases hm : c = '-'
        · subst hm
          simp only [List.head?_cons, true_or, if_true, List.tail_cons] at hlit
          exact ⟨nptr.data.takeWhile isspace, ['-'], cs, hsplit.trans (by simp),
            takeWhile_isspace _, Or.inr (Or.inr rfl),
            hlit⟩
        · by_cases hp : c = '+'
          · subst hp
            simp only [List.head?_cons, or_true, if_true, List.tail_cons] at hlit
            exact ⟨nptr.data.takeWhile isspace, ['+'], cs, hsplit.trans (by simp),
              takeWhile_isspace _, Or.inr (Or.inl rfl),
              hlit⟩
          · have h1 : ¬ (some c = some '-') := fun e => hm (Option.some.inj e)
            have h2 : ¬ (some c = some '+') := fun e => hp (Option.some.inj e)
            simp only [List.head?_cons, h1, h2, or_self, if_false] at hlit
            exact ⟨nptr.data.takeWhile isspace, [], c :: cs, hsplit.trans (by simp),
              takeWhile_isspace _, Or.inl rfl, hlit⟩
  · rintro (rfl | ⟨ws, sg, body, heq, hws, hsg, hlit⟩)
    · decide
    · obtain ⟨c, cs, rfl, hsp, hplus, hminus⟩ := literal_head body hlit
      obtain ⟨n, hn⟩ := (strtoul_number_whole _).2 hlit
      have h1 : ¬ (some c = some '-') := fun e => hminus (Option.some.inj e)
      have h2 : ¬ (some c = some '+') := fun e => hplus (Option.some.inj e)
      rw [strtoul_eq nptr _ _ rfl rfl, heq]
      rcases hsg with rfl | rfl | rfl
      · rw [List.append_nil, dropWhile_isspace_append ws c cs hws hsp]
        simp only [List.head?_cons, h1, h2, or_self, if_false, hn]
      · rw [List.append_assoc, List.singleton_append,
          dropWhile_isspace_append ws '+' (c :: cs) hws (by decide)]
        simp only [List.head?_cons, or_true, if_true, List.tail_cons, hn]
      · rw [List.append_assoc, List.singleton_append,
          dropWhile_isspace_append ws '-' (c :: cs) hws (by decide)]
        simp only [List.head?_cons, true_or, if_true, List.tail_cons, hn]

/-! ## Usage errors -/

/-- Characters left unread by the parser end the run with status 2 and the message
`non-numeric value`, with and without `-c`, before anything is printed. -/
theorem main_unread (lib : String → Nat × String) (prog valstr : String)
    (h : (lib valstr).2 ≠ "") :
    main lib [prog, valstr]
      = some ⟨EXIT_USAGE, [], some ("non-numeric value: \"" ++ valstr ++ "\"")⟩
    ∧ main lib [prog, "-c", valstr]
      = some ⟨EXIT_USAGE, [], some ("non-numeric value: \"" ++ valstr ++ "\"")⟩ := by
  constructor <;> simp [main, h]

/-- C11, refuted as stated: with `-c` as the only argument the program takes `-c` as VALUE and
the message on the error stream is `non-numeric value: "-c"`, not the usage line. -/
theorem dash_c_alone_not_usage :
    main strtoul ["v8bitfield", "-c"]
      = some ⟨2, [], some "non-numeric value: \"-c\""⟩
    ∧ main strtoul ["v8bitfield", "-c"]
      ≠ some ⟨2, [], some "usage: v8bitfield [-c] VALUE"⟩ := by
  decide

/-- C11, amended: invoked with no argument the program exits with status 2, writes
`usage: PROGRAM [-c] VALUE` to the error stream and prints nothing; invoked with `-c` as the only
argument it exits with status 2, writes `non-numeric value: "-c"` to the error stream and prints
nothing. -/
theorem arity_errors (lib : String → Nat × String) (prog : String) :
    main lib [prog] = some ⟨EXIT_USAGE, [], some ("usage: " ++ prog ++ " [-c] VALUE")⟩
    ∧ main strtoul [prog, "-c"] = some ⟨EXIT_USAGE, [], some "non-numeric value: \"-c\""⟩
    ∧ EXIT_USAGE = 2 := by
  refine ⟨by simp [main], ?_, rfl⟩
  exact (main_unread strtoul prog "-c" (by decide)).1

/-- C12, refuted as stated: `-2` is not an integer literal, yet the program reads it as
`2^64 - 2`, decodes `0x7fffffffffffffff` and exits with status 0. -/
theorem negative_value_accepted :
    ¬ is_literal "-2".data
    ∧ main strtoul ["v8bitfield", "-2"] = some ⟨0,
        [Printf.val_head 0x7fffffffffffffff "PropertyDetails",
          Printf.val_label "PropertyType", Printf.val_unknown,
          Printf.val_label "PropertyAttributes", Printf.val_flag "READ_ONLY",
          Printf.val_flag "DONT_ENUM", Printf.val_flag "DONT_DELETE", Printf.val_newline,
          Printf.val_label "DeletedField", Printf.val_flag "DELETED", Printf.val_newline,
          Printf.val_label "DictionaryStorage", Printf.val_raw 0xffffff,
          Printf.val_label "Representation", Printf.val_unknown,
          Printf.val_label "DescriptorPointer", Printf.val_raw 0x3ff,
          Printf.val_label "FieldIndex", Printf.val_raw 0x3ff], none⟩ := by
  refine ⟨fun h => ?_, by decide⟩
  obtain ⟨c, cs, heq, _, _, hm⟩ := literal_head _ h
  injection heq with hc _
  exact hm hc.symm

/-- C12, amended: for every non-empty VALUE argument that is not, after optional leading white
space and an optional sign, an integer literal in C auto-base syntax read to its end (`0x` or `0X`
hexadecimal, leading-`0` octal, otherwise decimal), such as `abc` or a number with trailing
characters, the program exits with status 2 with the message `non-numeric value: "VALUE"` and
prints neither decode nor description, with and without `-c`. -/
theorem non_numeric_value (prog valstr : String) (hne : valstr ≠ "")
    (h : ¬ is_signed_literal valstr.data) :
    main strtoul [prog, valstr]
      = some ⟨EXIT_USAGE, [], some ("non-numeric value: \"" ++ valstr ++ "\"")⟩
    ∧ main strtoul [prog, "-c", valstr]
      = some ⟨EXIT_USAGE, [], some ("non-numeric value: \"" ++ valstr ++ "\"")⟩
    ∧ EXIT_USAGE = 2 := by
  have hrest : (strtoul valstr).2 ≠ "" := fun e =>
    ((strtoul_reads_whole_iff valstr).1 e).elim hne h
  exact ⟨(main_unread strtoul prog valstr hrest).1, (main_unread strtoul prog valstr hrest).2,
    rfl⟩

/-- Witness of C12 as amended: the arguments `abc` and `12abc`. -/
theorem non_numeric_value_witness :
    ("abc" ≠ "" ∧ ¬ is_signed_literal "abc".data)
    ∧ main strtoul ["v8bitfield", "abc"]
        = some ⟨2, [], some "non-numeric value: \"abc\""⟩
    ∧ main strtoul ["v8bitfield", "-c", "12abc"]
        = some ⟨2, [], some "non-numeric value: \"12abc\""⟩ :=
  ⟨⟨by decide, fun h => absurd ((strtoul_reads_whole_iff "abc").2 (Or.inr h)) (by decide)⟩,
    (non_numeric_value "v8bitfield" "abc" (by decide)
      (fun h => absurd ((strtoul_reads_whole_iff "abc").2 (Or.inr h)) (by decide))).1,
    (non_numeric_value "v8bitfield" "12abc" (by decide)
      (fun h => absurd ((strtoul_reads_whole_iff "12abc").2 (Or.inr h)) (by decide))).2.1⟩

/-! ## The `-c` flag -/

/-- The decode of the wired layout returns for every word. -/
theorem dump_value_012_returns (value : Nat) :
    ∃ dump, v8bitfield_dump_value v8_012_property_details value = some dump := by
  obtain ⟨lines, h, _⟩ := dump_value_lines v8_012_property_details value (by decide)
  exact ⟨_, h⟩

/-- A third argument whose predecessor is not `-c` is a usage error. -/
theorem main_bad_flag (lib : String → Nat × String) (prog a b : String) (h : a ≠ "-c") :
    main lib [prog, a, b]
      = some ⟨EXIT_USAGE, [], some ("usage: " ++ prog ++ " [-c] VALUE")⟩ := by
  simp [main, h]

set_option maxRecDepth 20000 in
/-- C13: for every VALUE read whole as a number, `PROGRAM -c VALUE` exits with status 0 and
prints the description of the v0.12 PropertyDetails layout (the layout name line, then the seven
fields PropertyType, PropertyAttributes, DeletedField, DictionaryStorage, Representation,
DescriptorPointer, FieldIndex with their symbol tables) followed by exactly what `PROGRAM VALUE`
prints; the description does not depend on VALUE.  With three arguments of which the first is
not `-c` the program exits with status 2 and the usage message. -/
theorem opt_c_output (lib : String → Nat × String) (prog arg : String) (v : Nat)
    (h : lib arg = (v, "")) :
    ∃ cfg dump,
      v8bitfield_dumpcfg v8_012_property_details = some cfg
      ∧ main lib [prog, arg] = some ⟨0, dump, none⟩
      ∧ main lib [prog, "-c", arg] = some ⟨0, cfg ++ dump, none⟩
      ∧ stdout_text (cfg ++ dump) = stdout_text cfg ++ stdout_text dump
      ∧ cfg_names cfg = ["PropertyType", "PropertyAttributes", "DeletedField",
          "DictionaryStorage", "Representation", "DescriptorPointer", "FieldIndex"]
      ∧ stdout_text cfg =
        "PropertyDetails:\n"
        ++ "    PropertyType: from bit 0 for 3 bits (exclusive values)\n"
        ++ "                  NORMAL = 0x0\n"
        ++ "                   FIELD = 0x1\n"
        ++ "                CONSTANT = 0x2\n"
        ++ "               CALLBACKS = 0x3\n"
        ++ "                 HANDLER = 0x4\n"
        ++ "             INTERCEPTOR = 0x5\n"
        ++ "             NONEXISTENT = 0x6\n"
        ++ "    PropertyAttributes: from bit 3 for 3 bits (overlapping flags)\n"
        ++ "                    NONE = 0x0\n"
        ++ "               READ_ONLY = 0x1\n"
        ++ "               DONT_ENUM = 0x2\n"
        ++ "             DONT_DELETE = 0x4\n"
        ++ "                  STRING = 0x8\n"
        ++ "                SYMBOLIC = 0x10\n"
        ++ "          PRIVATE_SYMBOL = 0x20\n"
        ++ "                  ABSENT = 0x40\n"
        ++ "    DeletedField: from bit 6 for 1 bits (overlapping flags)\n"
        ++ "                 DELETED = 0x1\n"
        ++ "    DictionaryStorage: from bit 7 for 24 bits (raw value)\n"
        ++ "    Representation: from bit 6 for 4 bits (exclusive values)\n"
        ++ "                    None = 0x0\n"
        ++ "                Integer8 = 0x1\n"
        ++ "               UInteger8 = 0x2\n"
        ++ "               Integer16 = 0x3\n"
        ++ "              UInteger16 = 0x4\n"
        ++ "                     Smi = 0x5\n"
        ++ "               Integer32 = 0x6\n"
        ++ "                  Double = 0x7\n"
        ++ "              HeapObject = 0x8\n"
        ++ "                  Tagged = 0x9\n"
        ++ "                External = 0xa\n"
        ++ "    DescriptorPointer: from bit 10 for 10 bits (raw value)\n"
        ++ "    FieldIndex: from bit 20 for 10 bits (raw value)\n"
      ∧ ∀ a b, a ≠ "-c" → main lib [prog, a, b]
          = some ⟨EXIT_USAGE, [], some ("usage: " ++ prog ++ " [-c] VALUE")⟩ := by
  obtain ⟨dump, hdump⟩ := dump_value_012_returns (v >>> 1)
  refine ⟨(v8bitfield_dumpcfg v8_012_property_details).get (by decide), dump, rfl, ?_, ?_,
    stdout_text_append _ _, rfl, rfl, fun a b hab => main_bad_flag lib prog a b hab⟩
  · rw [main_plain lib prog arg v h, hdump]
    rfl
  · rw [main_opt_c lib prog arg v h, hdump]
    rfl

/-- Witness of C13: the argument `0x2a` read by the C library. -/
theorem opt_c_output_witness :
    strtoul "0x2a" = (42, "")
    ∧ ∃ cfg dump,
      v8bitfield_dumpcfg v8_012_property_details = some cfg
      ∧ main strtoul ["v8bitfield", "0x2a"] = some ⟨0, dump, none⟩
      ∧ main strtoul ["v8bitfield", "-c", "0x2a"] = some ⟨0, cfg ++ dump, none⟩ := by
  obtain ⟨cfg, dump, h1, h2, h3, _⟩ := opt_c_output strtoul "v8bitfield" "0x2a" 42 (by decide)
  exact ⟨by decide, cfg, dump, h1, h2, h3⟩

/-! ## The compiled-in schemas -/

/-- A field that ends within the low 32 bits is decoded from those bits alone. -/
theorem decoded_low_word (vp : v8_bitfield_spec_t) (value : Nat)
    (h : vp.vb_off + vp.vb_nbits ≤ 32) :
    v8bitfield_decoded vp value = v8bitfield_decoded vp (value % 2 ^ 32) := by
  have hn : vp.vb_nbits ≤ 30 ∨ ¬ vp.vb_nbits ≤ 30 := Decidable.em _
  rcases hn with hn | hn
  · have ho : vp.vb_off < 64 := by omega
    rw [decoded_eq vp value ho hn, decoded_eq vp (value % 2 ^ 32) ho hn,
      Nat.and_pow_two_sub_one_eq_mod, Nat.and_pow_two_sub_one_eq_mod,
      Nat.shiftRight_eq_div_pow, Nat.shiftRight_eq_div_pow]
    congr 1
    obtain ⟨k, hk⟩ : ∃ k, 32 = vp.vb_off + k := ⟨32 - vp.vb_off, by omega⟩
    have hw : vp.vb_nbits ≤ k := by omega
    rw [hk, Nat.pow_add, Nat.mod_mul_right_div_self,
      Nat.mod_mod_of_dvd _ (Nat.pow_dvd_pow 2 hw)]
  · simp [v8bitfield_decoded, v8bitfield_mask, hn]

/-- C14: every spec of the two compiled-in layouts, v0.10 and v0.12 PropertyDetails, has a
positive bit width and `bit_offset + bit_width <= 32`; the value extracted for it is therefore
that of the low 32 bits of the word. -/
theorem schema_well_formed :
    ∀ s ∈ specs v8_010_property_details.vv_descs ++ specs v8_012_property_details.vv_descs,
      0 < s.vb_nbits ∧ s.vb_off + s.vb_nbits ≤ 32
      ∧ ∀ value, v8bitfield_decoded s value = v8bitfield_decoded s (value % 2 ^ 32) := by
  have hall : ∀ s ∈ specs v8_010_property_details.vv_descs
      ++ specs v8_012_property_details.vv_descs,
      0 < s.vb_nbits ∧ s.vb_off + s.vb_nbits ≤ 32 := by decide
  intro s hs
  exact ⟨(hall s hs).1, (hall s hs).2, fun value => decoded_low_word s value (hall s hs).2⟩

/-- Witness of C14: the widest field, DictionaryStorage of the v0.12 layout (bits 7-30). -/
theorem schema_well_formed_witness :
    v8_012_property_dictstorage ∈ specs v8_010_property_details.vv_descs
      ++ specs v8_012_property_details.vv_descs
    ∧ 0 < v8_012_property_dictstorage.vb_nbits
    ∧ v8_012_property_dictstorage.vb_off + v8_012_property_dictstorage.vb_nbits ≤ 32 :=
  ⟨by decide, (schema_well_formed v8_012_property_dictstorage (by decide)).1,
    (schema_well_formed v8_012_property_dictstorage (by decide)).2.1⟩

/-! ## The fields of the wired layout, word by word -/

/-- The decode of the wired layout, from the lines of its seven fields. -/
theorem dump_value_012_eq (value : Nat) (t0 t1 t2 t3 t4 t5 t6 : List Printf)
    (h0 : v8bitfield_dump_value_one v8_012_property_type value = some t0)
    (h1 : v8bitfield_dump_value_one v8_012_property_attr value = some t1)
    (h2 : v8bitfield_dump_value_one v8_012_property_deleted value = some t2)
    (h3 : v8bitfield_dump_value_one v8_012_property_dictstorage value = some t3)
    (h4 : v8bitfield_dump_value_one v8_012_property_repr value = some t4)
    (h5 : v8bitfield_dump_value_one v8_012_property_descptr value = some t5)
    (h6 : v8bitfield_dump_value_one v8_012_property_fieldindex value = some t6) :
    v8bitfield_dump_value v8_012_property_details value = some
      (Printf.val_head value "PropertyDetails" :: (t0 ++ t1 ++ t2 ++ t3 ++ t4 ++ t5 ++ t6)) := by
  simp only [v8bitfield_dump_value, v8_012_property_details, descs32, List.length_cons,
    List.length_nil, List.cons_append, List.nil_append, v8bitfield_dump_value_loop, h0, h1, h2,
    h3, h4, h5, h6, Option.bind_some, Option.map_some', Option.some_bind, Option.bind,
    Option.map]
  simp

/-- The value extracted for a field of at most 30 bits at an offset below 64, as a quotient and
a remainder. -/
theorem decoded_div_mod (vp : v8_bitfield_spec_t) (value o w : Nat) (ho : vp.vb_off = o)
    (hw : vp.vb_nbits = w) (ho64 : o < 64) (hw30 : w ≤ 30) :
    v8bitfield_decoded vp value = some (value / 2 ^ o % 2 ^ w) := by
  subst ho hw
  rw [decoded_eq vp value ho64 hw30, Nat.and_pow_two_sub_one_eq_mod, Nat.shiftRight_eq_div_pow]

/-- The line of an ENUM field, from the extracted value. -/
theorem dump_value_one_enum_of (vp : v8_bitfield_spec_t) (value d : Nat)
    (hty : vp.vb_type = V8_BITFIELD_ENUM) (ht : values_terminated vp.vb_values)
    (hd : v8bitfield_decoded vp value = some d) :
    v8bitfield_dump_value_one vp value = some [Printf.val_label vp.vb_name,
      match (symbols vp.vb_values).find? (fun s => ulong_of_int s.2 == d) with
      | some s => Printf.val_enum s.1
      | none => Printf.val_unknown] := by
  simp [v8bitfield_dump_value_one, hd, hty, dump_value_one_loop_enum _ _ ht]

/-- The line of a FLAGS field, from the extracted value. -/
theorem dump_value_one_flags_of (vp : v8_bitfield_spec_t) (value d : Nat)
    (hty : vp.vb_type = V8_BITFIELD_FLAGS) (ht : values_terminated vp.vb_values)
    (hd : v8bitfield_decoded vp value = some d) :
    v8bitfield_dump_value_one vp value = some (Printf.val_label vp.vb_name ::
      (((symbols vp.vb_values).filter (fun s => d &&& ulong_of_int s.2 != 0)).map
        (fun s => Printf.val_flag s.1) ++ [Printf.val_newline])) := by
  simp [v8bitfield_dump_value_one, hd, hty, dump_value_one_loop_flags _ _ ht]

/-- The PropertyType line of the wired layout shows the unknown marker for the value 7 alone. -/
theorem type_012_unknown (d : Nat) (hd : d < 8) :
    [Printf.val_label v8_012_property_type.vb_name,
      match (symbols v8_012_property_type.vb_values).find?
        (fun s => ulong_of_int s.2 == d) with
      | some s => Printf.val_enum s.1
      | none => Printf.val_unknown]
      = [Printf.val_label "PropertyType", Printf.val_unknown] ↔ d = 7 := by
  interval_cases d <;> decide

/-- The Representation line of the wired layout shows the unknown marker from the value 11 on. -/
theorem repr_012_unknown (d : Nat) (hd : d < 16) :
    [Printf.val_label v8_012_property_repr.vb_name,
      match (symbols v8_012_property_repr.vb_values).find?
        (fun s => ulong_of_int s.2 == d) with
      | some s => Printf.val_enum s.1
      | none => Printf.val_unknown]
      = [Printf.val_label "Representation", Printf.val_unknown] ↔ 11 ≤ d := by
  interval_cases d <;> decide

/-- C15: for every command-line input `v` read whole, the run exits with status 0 and prints the
header and the seven field lines of the v0.12 layout; the PropertyType line shows
`UNKNOWN VALUE` if and only if bits 0-2 of `v >> 1` are 7, and the Representation line shows
`UNKNOWN VALUE` if and only if bits 6-9 of `v >> 1` are at least 11. -/
theorem unknown_enum_values (lib : String → Nat × String) (prog arg : String) (v : Nat)
    (h : lib arg = (v, "")) :
    ∃ t0 t1 t2 t3 t4 t5 t6,
      v8bitfield_dump_value_one v8_012_property_type (v >>> 1) = some t0
      ∧ v8bitfield_dump_value_one v8_012_property_attr (v >>> 1) = some t1
      ∧ v8bitfield_dump_value_one v8_012_property_deleted (v >>> 1) = some t2
      ∧ v8bitfield_dump_value_one v8_012_property_dictstorage (v >>> 1) = some t3
      ∧ v8bitfield_dump_value_one v8_012_property_repr (v >>> 1) = some t4
      ∧ v8bitfield_dump_value_one v8_012_property_descptr (v >>> 1) = some t5
      ∧ v8bitfield_dump_value_one v8_012_property_fieldindex (v >>> 1) = some t6
      ∧ main lib [prog, arg] = some ⟨0, Printf.val_head (v >>> 1) "PropertyDetails" ::
          (t0 ++ t1 ++ t2 ++ t3 ++ t4 ++ t5 ++ t6), none⟩
      ∧ (t0 = [Printf.val_label "PropertyType", Printf.val_unknown] ↔ (v >>> 1) % 2 ^ 3 = 7)
      ∧ (t4 = [Printf.val_label "Representation", Printf.val_unknown]
          ↔ 11 ≤ (v >>> 1) / 2 ^ 6 % 2 ^ 4)
      ∧ Printf.val_unknown.render = "UNKNOWN VALUE\n" := by
  obtain ⟨t1, h1⟩ := dump_value_one_returns v8_012_property_attr (v >>> 1) (by decide)
  obtain ⟨t2, h2⟩ := dump_value_one_returns v8_012_property_deleted (v >>> 1) (by decide)
  obtain ⟨t3, h3⟩ := dump_value_one_returns v8_012_property_dictstorage (v >>> 1) (by decide)
  obtain ⟨t5, h5⟩ := dump_value_one_returns v8_012_property_descptr (v >>> 1) (by decide)
  obtain ⟨t6, h6⟩ := dump_value_one_returns v8_012_property_fieldindex (v >>> 1) (by decide)
  have h0 := dump_value_one_enum_of v8_012_property_type (v >>> 1) _ rfl (by decide)
    (decoded_div_mod v8_012_property_type (v >>> 1) 0 3 rfl rfl (by decide) (by decide))
  have h4 := dump_value_one_enum_of v8_012_property_repr (v >>> 1) _ rfl (by decide)
    (decoded_div_mod v8_012_property_repr (v >>> 1) 6 4 rfl rfl (by decide) (by decide))
  refine ⟨_, t1, t2, t3, _, t5, t6, h0, h1, h2, h3, h4, h5, h6, ?_, ?_, ?_, rfl⟩
  · rw [main_plain lib prog arg v h, dump_value_012_eq (v >>> 1) _ _ _ _ _ _ _ h0 h1 h2 h3 h4 h5 h6]
    rfl
  · have hlt : (v >>> 1) / 2 ^ 0 % 2 ^ 3 < 8 := Nat.mod_lt _ (by decide)
    have e : (v >>> 1) / 2 ^ 0 % 2 ^ 3 = (v >>> 1) % 2 ^ 3 := by simp
    rw [← e]
    exact type_012_unknown _ hlt
  · exact repr_012_unknown _ (Nat.mod_lt _ (by decide))

/-- Witness of C15: the argument `14`, whose pre-shifted word 7 has no PropertyType symbol. -/
theorem unknown_enum_values_witness :
    strtoul "14" = (14, "")
    ∧ v8bitfield_dump_value_one v8_012_property_type (14 >>> 1)
        = some [Printf.val_label "PropertyType", Printf.val_unknown]
    ∧ (main strtoul ["v8bitfield", "14"]).map (fun o => o.status) = some 0 := by
  obtain ⟨t0, t1, t2, t3, t4, t5, t6, h0, _, _, _, _, _, _, hmain, hiff, _⟩ :=
    unknown_enum_values strtoul "v8bitfield" "14" 14 (by decide)
  refine ⟨by decide, ?_, ?_⟩
  · rw [h0, hiff.2 (by decide)]
  · rw [hmain]
    rfl

/-! ## The pre-shift -/

/-- C16: for every `k`, the inputs `2k` and `2k+1` give the same run, exit status and every
`printf` call alike, with and without `-c`; the word handed to the decoder and shown in the
header is the input shifted right by one bit, `k`. -/
theorem preshift_drops_low_bit (lib : String → Nat × String) (prog a b : String) (k : Nat)
    (ha : lib a = (2 * k, "")) (hb : lib b = (2 * k + 1, "")) :
    main lib [prog, a] = main lib [prog, b]
    ∧ main lib [prog, "-c", a] = main lib [prog, "-c", b]
    ∧ (∃ dump, v8bitfield_dump_value v8_012_property_details k = some dump
        ∧ dump.head? = some (Printf.val_head k "PropertyDetails")
        ∧ main lib [prog, a] = some ⟨0, dump, none⟩
        ∧ main lib [prog, b] = some ⟨0, dump, none⟩)
    ∧ (Printf.val_head k "PropertyDetails").render
        = "value 0x" ++ String.mk (Nat.toDigits 16 k) ++ " as " ++ "PropertyDetails" ++ ":\n" := by
  have ea : (2 * k) >>> 1 = k := by
    rw [Nat.shiftRight_eq_div_pow]
    omega
  have eb : (2 * k + 1) >>> 1 = k := by
    rw [Nat.shiftRight_eq_div_pow]
    omega
  have hpa := main_plain lib prog a _ ha
  have hpb := main_plain lib prog b _ hb
  have hca := main_opt_c lib prog a _ ha
  have hcb := main_opt_c lib prog b _ hb
  rw [ea] at hpa hca
  rw [eb] at hpb hcb
  refine ⟨by rw [hpa, hpb], by rw [hca, hcb], ?_, rfl⟩
  obtain ⟨lines, hl, _⟩ := dump_value_lines v8_012_property_details k (by decide)
  refine ⟨_, hl, rfl, ?_, ?_⟩
  · rw [hpa, hl]
    rfl
  · rw [hpb, hl]
    rfl

/-- Witness of C16: the arguments `10` and `11`, both decoded as the word 5. -/
theorem preshift_drops_low_bit_witness :
    (strtoul "10" = (2 * 5, "") ∧ strtoul "11" = (2 * 5 + 1, ""))
    ∧ main strtoul ["v8bitfield", "10"] = main strtoul ["v8bitfield", "11"]
    ∧ main strtoul ["v8bitfield", "-c", "10"] = main strtoul ["v8bitfield", "-c", "11"] :=
  ⟨by decide,
    (preshift_drops_low_bit strtoul "v8bitfield" "10" "11" 5 (by decide) (by decide)).1,
    (preshift_drops_low_bit strtoul "v8bitfield" "10" "11" 5 (by decide) (by decide)).2.1⟩

/-! ## PropertyAttributes, DeletedField and Representation -/

/-- The names printed for a 3-bit value of the v0.12 PropertyAttributes field. -/
theorem attr_012_events (d : Nat) (hd : d < 8) :
    ((symbols v8_012_property_attr.vb_values).filter
        (fun s => d &&& ulong_of_int s.2 != 0)).map (fun s => Printf.val_flag s.1)
      = (if d % 2 = 1 then [Printf.val_flag "READ_ONLY"] else [])
        ++ (if d / 2 % 2 = 1 then [Printf.val_flag "DONT_ENUM"] else [])
        ++ (if d / 4 % 2 = 1 then [Printf.val_flag "DONT_DELETE"] else []) := by
  interval_cases d <;> decide

/-- The names printed for a 3-bit value of the v0.10 PropertyAttributes field. -/
theorem attr_010_events (d : Nat) (hd : d < 8) :
    ((symbols v8_010_property_attr.vb_values).filter
        (fun s => d &&& ulong_of_int s.2 != 0)).map (fun s => Printf.val_flag s.1)
      = (if d % 2 = 1 then [Printf.val_flag "READ_ONLY"] else [])
        ++ (if d / 2 % 2 = 1 then [Printf.val_flag "DONT_ENUM"] else [])
        ++ (if d / 4 % 2 = 1 then [Printf.val_flag "DONT_DELETE"] else []) := by
  interval_cases d <;> decide

/-- The bits of a 3-bit field at offset 3 are bits 3, 4 and 5 of the word. -/
theorem attr_bits (word : Nat) :
    (word / 2 ^ 3 % 2 ^ 3 % 2 = 1 ↔ word.testBit 3 = true)
    ∧ (word / 2 ^ 3 % 2 ^ 3 / 2 % 2 = 1 ↔ word.testBit 4 = true)
    ∧ (word / 2 ^ 3 % 2 ^ 3 / 4 % 2 = 1 ↔ word.testBit 5 = true) := by
  simp only [Nat.testBit_to_div_mod, decide_eq_true_eq]
  refine ⟨?_, ?_, ?_⟩ <;> norm_num <;> omega

/-- C17: for every word, the PropertyAttributes line of the v0.12 layout is the label, then the
names among READ_ONLY, DONT_ENUM, DONT_DELETE, in that order, whose bits 3, 4, 5 of the word are
set, then the newline; none of NONE, STRING, SYMBOLIC, PRIVATE_SYMBOL, ABSENT is ever printed.
The same holds for the v0.10 layout, where ABSENT (16) and NONE are never printed. -/
theorem attr_line (word : Nat) :
    v8bitfield_dump_value_one v8_012_property_attr word = some
      (Printf.val_label "PropertyAttributes" ::
        ((if word.testBit 3 then [Printf.val_flag "READ_ONLY"] else [])
          ++ (if word.testBit 4 then [Printf.val_flag "DONT_ENUM"] else [])
          ++ (if word.testBit 5 then [Printf.val_flag "DONT_DELETE"] else [])
          ++ [Printf.val_newline]))
    ∧ v8bitfield_dump_value_one v8_010_property_attr word = some
      (Printf.val_label "PropertyAttributes" ::
        ((if word.testBit 3 then [Printf.val_flag "READ_ONLY"] else [])
          ++ (if word.testBit 4 then [Printf.val_flag "DONT_ENUM"] else [])
          ++ (if word.testBit 5 then [Printf.val_flag "DONT_DELETE"] else [])
          ++ [Printf.val_newline]))
    ∧ (∀ t, v8bitfield_dump_value_one v8_012_property_attr word = some t
          ∨ v8bitfield_dump_value_one v8_010_property_attr word = some t →
        ∀ name ∈ ["NONE", "STRING", "SYMBOLIC", "PRIVATE_SYMBOL", "ABSENT"],
          Printf.val_flag name ∉ t) := by
  obtain ⟨b3, b4, b5⟩ := attr_bits word
  have hlt : word / 2 ^ 3 % 2 ^ 3 < 8 := Nat.mod_lt _ (by decide)
  have h12 := dump_value_one_flags_of v8_012_property_attr word _ rfl (by decide)
    (decoded_div_mod v8_012_property_attr word 3 3 rfl rfl (by decide) (by decide))
  have h10 := dump_value_one_flags_of v8_010_property_attr word _ rfl (by decide)
    (decoded_div_mod v8_010_property_attr word 3 3 rfl rfl (by decide) (by decide))
  rw [attr_012_events _ hlt] at h12
  rw [attr_010_events _ hlt] at h10
  simp only [b3, b4, b5] at h12 h10
  refine ⟨h12, h10, ?_⟩
  intro t ht name hname
  have ht2 : t = Printf.val_label "PropertyAttributes" ::
      ((if word.testBit 3 then [Printf.val_flag "READ_ONLY"] else [])
        ++ (if word.testBit 4 then [Printf.val_flag "DONT_ENUM"] else [])
        ++ (if word.testBit 5 then [Printf.val_flag "DONT_DELETE"] else [])
        ++ [Printf.val_newline]) := by
    rcases ht with ht | ht
    · rw [h12] at ht
      exact (Option.some.inj ht).symm
    · rw [h10] at ht
      exact (Option.some.inj ht).symm
  subst ht2
  simp only [List.mem_cons, List.mem_singleton, List.mem_nil_iff, or_false] at hname
  rcases hname with rfl | rfl | rfl | rfl | rfl <;>
    cases word.testBit 3 <;> cases word.testBit 4 <;> cases word.testBit 5 <;> decide

/-- The DeletedField line for a 1-bit value. -/
theorem deleted_012_events (d : Nat) (hd : d < 2) :
    ((symbols v8_012_property_deleted.vb_values).filter
        (fun s => d &&& ulong_of_int s.2 != 0)).map (fun s => Printf.val_flag s.1)
      = if d = 1 then [Printf.val_flag "DELETED"] else [] := by
  interval_cases d <;> decide

/-- A Representation symbol of odd value is printed for odd extracted values only, and one of
even value for even extracted values only. -/
theorem repr_012_parity (d : Nat) (hd : d < 16) :
    (∀ name ∈ ["Integer8", "Integer16", "Smi", "Double", "Tagged"],
      (match (symbols v8_012_property_repr.vb_values).find?
          (fun s => ulong_of_int s.2 == d) with
        | some s => Printf.val_enum s.1
        | none => Printf.val_unknown) = Printf.val_enum name → d % 2 = 1)
    ∧ (∀ name ∈ ["None", "UInteger8", "UInteger16", "Integer32", "HeapObject", "External"],
      (match (symbols v8_012_property_repr.vb_values).find?
          (fun s => ulong_of_int s.2 == d) with
        | some s => Printf.val_enum s.1
        | none => Printf.val_unknown) = Printf.val_enum name → d % 2 = 0) := by
  interval_cases d <;> decide

/-- C18: for every word, with `d` the value extracted for the v0.12 Representation field (bits
6-9), the DeletedField line (bit 6) shows DELETED if and only if `d` is odd and is empty if and
only if `d` is even; so it shows DELETED whenever Representation prints Integer8, Integer16, Smi,
Double or Tagged, and is empty whenever Representation prints None, UInteger8, UInteger16,
Integer32, HeapObject or External. -/
theorem deleted_overlaps_representation (word : Nat) :
    ∃ d tdel trepr,
      v8bitfield_decoded v8_012_property_repr word = some d
      ∧ v8bitfield_dump_value_one v8_012_property_deleted word = some tdel
      ∧ v8bitfield_dump_value_one v8_012_property_repr word = some trepr
      ∧ (tdel = [Printf.val_label "DeletedField", Printf.val_flag "DELETED",
            Printf.val_newline] ↔ d % 2 = 1)
      ∧ (tdel = [Printf.val_label "DeletedField", Printf.val_newline] ↔ d % 2 = 0)
      ∧ (∀ name ∈ ["Integer8", "Integer16", "Smi", "Double", "Tagged"],
          trepr = [Printf.val_label "Representation", Printf.val_enum name] →
          tdel = [Printf.val_label "DeletedField", Printf.val_flag "DELETED",
            Printf.val_newline])
      ∧ (∀ name ∈ ["None", "UInteger8", "UInteger16", "Integer32", "HeapObject", "External"],
          trepr = [Printf.val_label "Representation", Printf.val_enum name] →
          tdel = [Printf.val_label "DeletedField", Printf.val_newline]) := by
  have hd := decoded_div_mod v8_012_property_repr word 6 4 rfl rfl (by decide) (by decide)
  have hrepr := dump_value_one_enum_of v8_012_property_repr word _ rfl (by decide) hd
  have hdel := dump_value_one_flags_of v8_012_property_deleted word _ rfl (by decide)
    (decoded_div_mod v8_012_property_deleted word 6 1 rfl rfl (by decide) (by decide))
  rw [deleted_012_events (word / 2 ^ 6 % 2 ^ 1) (Nat.mod_lt _ (by decide))] at hdel
  have hbit : word / 2 ^ 6 % 2 ^ 1 = word / 2 ^ 6 % 2 ^ 4 % 2 := by
    norm_num
  have hlt : word / 2 ^ 6 % 2 ^ 4 < 16 := Nat.mod_lt _ (by decide)
  have hpar := repr_012_parity _ hlt
  rw [hbit] at hdel
  generalize word / 2 ^ 6 % 2 ^ 4 = d at hd hrepr hdel hpar hlt
  have hcases : d % 2 = 1 ∨ d % 2 = 0 := by omega
  have hodd : d % 2 = 1 →
      v8bitfield_dump_value_one v8_012_property_deleted word = some
        [Printf.val_label "DeletedField", Printf.val_flag "DELETED", Printf.val_newline] := by
    intro h1
    rw [hdel, if_pos h1]
    rfl
  have heven : d % 2 = 0 →
      v8bitfield_dump_value_one v8_012_property_deleted word = some
        [Printf.val_label "DeletedField", Printf.val_newline] := by
    intro h0
    rw [hdel, if_neg (by omega)]
    rfl
  have hname : ∀ name, [Printf.val_label v8_012_property_repr.vb_name,
      match (symbols v8_012_property_repr.vb_values).find?
        (fun s => ulong_of_int s.2 == d) with
      | some s => Printf.val_enum s.1
      | none => Printf.val_unknown] = [Printf.val_label "Representation", Printf.val_enum name] →
      (match (symbols v8_012_property_repr.vb_values).find?
        (fun s => ulong_of_int s.2 == d) with
      | some s => Printf.val_enum s.1
      | none => Printf.val_unknown) = Printf.val_enum name := by
    intro name e
    injection e with _ e
    injection e with e _
  rcases hcases with h1 | h0
  · refine ⟨d, _, _, hd, hodd h1, hrepr, ?_, ?_, ?_, ?_⟩
    · exact ⟨fun _ => h1, fun _ => rfl⟩
    · constructor
      · intro e
        exact absurd e (by decide)
      · intro h0
        omega
    · intro name _ _
      rfl
    · intro name hn e
      have := hpar.2 name hn (hname name e)
      omega
  · refine ⟨d, _, _, hd, heven h0, hrepr, ?_, ?_, ?_, ?_⟩
    · constructor
      · intro e
        exact absurd e (by decide)
      · intro h1
        omega
    · exact ⟨fun _ => h0, fun _ => rfl⟩
    · intro name hn e
      have := hpar.1 name hn (hname name e)
      omega
    · intro name _ _
      rfl

/-! ## Safety of decoding against the compiled-in schemas -/

/-- The description of a layout with terminated tables returns. -/
theorem dumpcfg_returns (vp : v8_bitfield_value_t) (h : layout_ok vp) :
    ∃ t, v8bitfield_dumpcfg vp = some t := by
  have hcfg := dumpcfg_loop_eq vp.vv_descs h.1 (fun s hs => (h.2 s hs).2.2.1)
  unfold v8bitfield_dumpcfg
  rw [hcfg]
  exact ⟨_, rfl⟩

/-- C19: for every spec of the two compiled-in layouts the width is at most 30, so that the
`int` computation `(1 << width) - 1` is defined and gives `2^width - 1`; the type is RAW, ENUM or
FLAGS, so that the assertion in the symbol loop holds when reached; the symbol table fills an
array of 16 slots with at most 15 symbols and a `NULL` name after them; and each layout fills an
array of 32 slots with at most 31 specs and a `NULL` pointer after them.  Hence
`v8bitfield_dump_value_one`, `v8bitfield_dumpcfg_one`, `v8bitfield_dump_value` and
`v8bitfield_dumpcfg` return on them for every word, without a read out of bounds or a failed
assertion. -/
theorem compiled_schemas_safe :
    (∀ s ∈ specs v8_010_property_details.vv_descs ++ specs v8_012_property_details.vv_descs,
      s.vb_nbits ≤ 30
      ∧ v8bitfield_mask s.vb_nbits = some (2 ^ s.vb_nbits - 1)
      ∧ (s.vb_type = V8_BITFIELD_RAW ∨ s.vb_type = V8_BITFIELD_ENUM
          ∨ s.vb_type = V8_BITFIELD_FLAGS)
      ∧ s.vb_values.length = 16
      ∧ (symbols s.vb_values).length ≤ 15
      ∧ values_terminated s.vb_values
      ∧ (∀ word, ∃ t, v8bitfield_dump_value_one s word = some t)
      ∧ ∃ t, v8bitfield_dumpcfg_one s = some t)
    ∧ (∀ vp ∈ [v8_010_property_details, v8_012_property_details],
      vp.vv_descs.length = 32
      ∧ (specs vp.vv_descs).length ≤ 31
      ∧ descs_terminated vp.vv_descs
      ∧ (∀ word, ∃ t, v8bitfield_dump_value vp word = some t)
      ∧ ∃ t, v8bitfield_dumpcfg vp = some t) := by
  have hspecs : ∀ s ∈ specs v8_010_property_details.vv_descs
      ++ specs v8_012_property_details.vv_descs,
      spec_ok s ∧ s.vb_values.length = 16 ∧ (symbols s.vb_values).length ≤ 15 := by decide
  have hlayouts : ∀ vp ∈ [v8_010_property_details, v8_012_property_details],
      layout_ok vp ∧ vp.vv_descs.length = 32 ∧ (specs vp.vv_descs).length ≤ 31 := by decide
  constructor
  · intro s hs
    obtain ⟨hok, hlen, hsym⟩ := hspecs s hs
    exact ⟨hok.1, mask_eq _ hok.1, hok.2.2.2, hlen, hsym, hok.2.2.1,
      fun word => dump_value_one_returns s word hok, ⟨_, dumpcfg_one_eq s hok.2.2.1⟩⟩
  · intro vp hvp
    obtain ⟨hok, hlen, hn⟩ := hlayouts vp hvp
    refine ⟨hlen, hn, hok.1, fun word => ?_, dumpcfg_returns vp hok⟩
    obtain ⟨lines, h, _⟩ := dump_value_lines vp word hok
    exact ⟨_, h⟩

/-- Witness of C19: the Representation spec, with the longest symbol table (11 symbols), and the
v0.12 layout, the longest (7 specs). -/
theorem compiled_schemas_safe_witness :
    (v8_012_property_repr ∈ specs v8_010_property_details.vv_descs
        ++ specs v8_012_property_details.vv_descs
      ∧ v8_012_property_details ∈ [v8_010_property_details, v8_012_property_details])
    ∧ v8bitfield_mask v8_012_property_repr.vb_nbits = some 15
    ∧ (symbols v8_012_property_repr.vb_values).length ≤ 15
    ∧ (specs v8_012_property_details.vv_descs).length ≤ 31 :=
  ⟨by decide, (compiled_schemas_safe.1 v8_012_property_repr (by decide)).2.1,
    (compiled_schemas_safe.1 v8_012_property_repr (by decide)).2.2.2.2.1,
    (compiled_schemas_safe.2 v8_012_property_details (by decide)).2.1⟩

end V8Bitfield
